import Mathlib

/-!
Verification of the CWC (chocolate-with-chocolate) token codec.

Shallow embedding of the repository's TypeScript sources:
- byte sequences are `List Nat` with values kept below 256 (`% 256` where a
  `Uint8Array` store truncates);
- JS strings are `List Char`;
- fallible functions return `Except String` carrying the thrown `Error` message;
- `Date.now()` and the CSPRNG are explicit parameters (`now : Nat` in
  milliseconds, `ent : Nat → Nat` an entropy stream);
- platform services (AES-GCM, PBKDF2, `JSON`, `TextEncoder`, the compression
  libraries) that live outside the repository are modelled by concrete
  executable functions satisfying the contracts the spec states for them;
  every such model is marked `Modelled from the spec` in its doc comment.
-/

namespace CWC

/-! ## URL-safe base64 (src/utils/base64.ts)

The source encodes with the standard alphabet via `Buffer`/`btoa`, then maps
`+ → -`, `/ → _` and strips `=` padding; decoding reverses the mapping,
re-pads and decodes.  The embedding composes those steps into one codec over
the URL-safe alphabet with no padding, which is the same string-level
behaviour. -/

def b64Alphabet : List Char :=
  "ABCDEFGHIJKLMNOPQRSTUVWXYZabcdefghijklmnopqrstuvwxyz0123456789-_".toList

def b64Char (v : Nat) : Char := b64Alphabet.getD v 'A'

def lookupIdx : List Char → Char → Option Nat
  | [], _ => Option.none
  | a :: rest, c => if a = c then some 0 else (lookupIdx rest c).map (· + 1)

def b64Val (c : Char) : Option Nat := lookupIdx b64Alphabet c

def encodeBase64Url : List Nat → List Char
  | [] => []
  | [b1] => [b64Char (b1 / 4), b64Char (b1 % 4 * 16)]
  | [b1, b2] => [b64Char (b1 / 4), b64Char (b1 % 4 * 16 + b2 / 16), b64Char (b2 % 16 * 4)]
  | b1 :: b2 :: b3 :: rest =>
      b64Char (b1 / 4) :: b64Char (b1 % 4 * 16 + b2 / 16) ::
      b64Char (b2 % 16 * 4 + b3 / 64) :: b64Char (b3 % 64) :: encodeBase64Url rest

def decodeBase64Url : List Char → Option (List Nat)
  | [] => some []
  | [_] => Option.none
  | [c1, c2] =>
      match b64Val c1, b64Val c2 with
      | some v1, some v2 => some [v1 * 4 + v2 / 16]
      | _, _ => Option.none
  | [c1, c2, c3] =>
      match b64Val c1, b64Val c2, b64Val c3 with
      | some v1, some v2, some v3 => some [v1 * 4 + v2 / 16, v2 % 16 * 16 + v3 / 4]
      | _, _, _ => Option.none
  | c1 :: c2 :: c3 :: c4 :: rest =>
      match b64Val c1, b64Val c2, b64Val c3, b64Val c4, decodeBase64Url rest with
      | some v1, some v2, some v3, some v4, some bs =>
          some ((v1 * 4 + v2 / 16) :: (v2 % 16 * 16 + v3 / 4) :: (v3 % 4 * 64 + v4) :: bs)
      | _, _, _, _, _ => Option.none

theorem b64Val_b64Char : ∀ v, v < 64 → b64Val (b64Char v) = some v := by decide

theorem decodeBase64Url_encodeBase64Url :
    ∀ bs : List Nat, (∀ b ∈ bs, b < 256) → decodeBase64Url (encodeBase64Url bs) = some bs := by
  intro bs
  induction bs using encodeBase64Url.induct with
  | case1 => intro _; decide
  | case2 b1 =>
      intro h
      have hb1 : b1 < 256 := h b1 (by simp)
      have h1 := b64Val_b64Char (b1 / 4) (by omega)
      have h2 := b64Val_b64Char (b1 % 4 * 16) (by omega)
      simp [encodeBase64Url, decodeBase64Url, h1, h2]; omega
  | case3 b1 b2 =>
      intro h
      have hb1 : b1 < 256 := h b1 (by simp)
      have hb2 : b2 < 256 := h b2 (by simp)
      have h1 := b64Val_b64Char (b1 / 4) (by omega)
      have h2 := b64Val_b64Char (b1 % 4 * 16 + b2 / 16) (by omega)
      have h3 := b64Val_b64Char (b2 % 16 * 4) (by omega)
      simp [encodeBase64Url, decodeBase64Url, h1, h2, h3]; omega
  | case4 b1 b2 b3 rest ih =>
      intro h
      have hb1 : b1 < 256 := h b1 (by simp)
      have hb2 : b2 < 256 := h b2 (by simp)
      have hb3 : b3 < 256 := h b3 (by simp)
      have hrest : decodeBase64Url (encodeBase64Url rest) = some rest := by
        apply ih; intro b hb; exact h b (by simp [hb])
      have h1 := b64Val_b64Char (b1 / 4) (by omega)
      have h2 := b64Val_b64Char (b1 % 4 * 16 + b2 / 16) (by omega)
      have h3 := b64Val_b64Char (b2 % 16 * 4 + b3 / 64) (by omega)
      have h4 := b64Val_b64Char (b3 % 64) (by omega)
      cases rest with
      | nil => simp [encodeBase64Url, decodeBase64Url, h1, h2, h3, h4]; omega
      | cons x xs =>
          simp only [encodeBase64Url] at hrest ⊢
          simp [decodeBase64Url, h1, h2, h3, h4, hrest]; omega

/-! ## UTF-8 text codec (src/utils/buffers.ts `stringToBytes`/`bytesToString`) -/

/-- Modelled from the spec: `stringToBytes` (TextEncoder) — UTF-8 encoding of one scalar value. -/
def utf8EncodeChar (n : Nat) : List Nat :=
  if n < 128 then [n]
  else if n < 2048 then [192 + n / 64, 128 + n % 64]
  else if n < 65536 then [224 + n / 4096, 128 + n / 64 % 64, 128 + n % 64]
  else [240 + n / 262144, 128 + n / 4096 % 64, 128 + n / 64 % 64, 128 + n % 64]

def stringToBytes (s : List Char) : List Nat := s.flatMap (fun c => utf8EncodeChar c.toNat)

mutual
/-- Modelled from the spec: `bytesToString` (TextDecoder) — UTF-8 decoding;
`none` where the real decoder would signal malformed input. -/
def utf8Decode : List Nat → Option (List Char)
  | [] => some []
  | b :: rest =>
    if b < 128 then (utf8Decode rest).map (fun cs => Char.ofNat b :: cs)
    else if b < 192 then Option.none
    else if b < 224 then utf8Tail1 b rest
    else if b < 240 then utf8Tail2 b rest
    else utf8Tail3 b rest
termination_by l => l.length

/-- Continuation of `utf8Decode` for a two-byte sequence. -/
def utf8Tail1 : Nat → List Nat → Option (List Char)
  | b, b2 :: rest2 =>
      if 128 ≤ b2 ∧ b2 < 192 then
        (utf8Decode rest2).map (fun cs => Char.ofNat ((b - 192) * 64 + (b2 - 128)) :: cs)
      else Option.none
  | _, [] => Option.none
termination_by _ l => l.length

/-- Continuation of `utf8Decode` for a three-byte sequence. -/
def utf8Tail2 : Nat → List Nat → Option (List Char)
  | b, b2 :: b3 :: rest3 =>
      if (128 ≤ b2 ∧ b2 < 192) ∧ (128 ≤ b3 ∧ b3 < 192) then
        (utf8Decode rest3).map
          (fun cs => Char.ofNat ((b - 224) * 4096 + (b2 - 128) * 64 + (b3 - 128)) :: cs)
      else Option.none
  | _, _ => Option.none
termination_by _ l => l.length

/-- Continuation of `utf8Decode` for a four-byte sequence. -/
def utf8Tail3 : Nat → List Nat → Option (List Char)
  | b, b2 :: b3 :: b4 :: rest4 =>
      if (128 ≤ b2 ∧ b2 < 192) ∧ (128 ≤ b3 ∧ b3 < 192) ∧ (128 ≤ b4 ∧ b4 < 192) then
        (utf8Decode rest4).map
          (fun cs =>
            Char.ofNat ((b - 240) * 262144 + (b2 - 128) * 4096 + (b3 - 128) * 64 + (b4 - 128)) :: cs)
      else Option.none
  | _, _ => Option.none
termination_by _ l => l.length
end

def bytesToString (bytes : List Nat) : Option (List Char) := utf8Decode bytes

theorem char_toNat_lt (c : Char) : c.toNat < 1114112 := by
  have h := c.valid
  rcases h with h | h
  · exact Nat.lt_trans h (by norm_num)
  · exact h.2

theorem utf8Decode_encodeChar (c : Char) (bs : List Nat) :
    utf8Decode (utf8EncodeChar c.toNat ++ bs) = (utf8Decode bs).map (fun cs => c :: cs) := by
  have hlt := char_toNat_lt c
  have hofc : Char.ofNat c.toNat = c := Char.ofNat_toNat c
  by_cases h1 : c.toNat < 128
  · rw [utf8EncodeChar, if_pos h1]
    simp only [List.cons_append, List.nil_append]
    rw [utf8Decode, if_pos h1, hofc]
  · by_cases h2 : c.toNat < 2048
    · rw [utf8EncodeChar, if_neg h1, if_pos h2]
      simp only [List.cons_append, List.nil_append]
      rw [utf8Decode, if_neg (by omega), if_neg (by omega), if_pos (by omega)]
      rw [utf8Tail1, if_pos (by omega)]
      have e : (192 + c.toNat / 64 - 192) * 64 + (128 + c.toNat % 64 - 128) = c.toNat := by omega
      rw [e, hofc]
    · by_cases h3 : c.toNat < 65536
      · rw [utf8EncodeChar, if_neg h1, if_neg h2, if_pos h3]
        simp only [List.cons_append, List.nil_append]
        rw [utf8Decode, if_neg (by omega), if_neg (by omega), if_neg (by omega),
          if_pos (by omega)]
        rw [utf8Tail2, if_pos (by omega)]
        have e : (224 + c.toNat / 4096 - 224) * 4096 + (128 + c.toNat / 64 % 64 - 128) * 64 +
            (128 + c.toNat % 64 - 128) = c.toNat := by omega
        rw [e, hofc]
      · rw [utf8EncodeChar, if_neg h1, if_neg h2, if_neg h3]
        simp only [List.cons_append, List.nil_append]
        rw [utf8Decode, if_neg (by omega), if_neg (by omega), if_neg (by omega),
          if_neg (by omega)]
        rw [utf8Tail3, if_pos (by omega)]
        have e : (240 + c.toNat / 262144 - 240) * 262144 + (128 + c.toNat / 4096 % 64 - 128) * 4096 +
            (128 + c.toNat / 64 % 64 - 128) * 64 + (128 + c.toNat % 64 - 128) = c.toNat := by omega
        rw [e, hofc]

theorem utf8Decode_stringToBytes (s : List Char) : utf8Decode (stringToBytes s) = some s := by
  induction s with
  | nil => simp [stringToBytes, utf8Decode]
  | cons c cs ih =>
      have h : stringToBytes (c :: cs) = utf8EncodeChar c.toNat ++ stringToBytes cs := by
        simp [stringToBytes]
      rw [h, utf8Decode_encodeChar, ih]
      rfl

theorem utf8EncodeChar_lt_256 (c : Char) : ∀ b ∈ utf8EncodeChar c.toNat, b < 256 := by
  have hlt := char_toNat_lt c
  intro b hb
  unfold utf8EncodeChar at hb
  split at hb
  · simp at hb; omega
  · split at hb
    · simp at hb; rcases hb with h | h <;> omega
    · split at hb
      · simp at hb; rcases hb with h | h | h <;> omega
      · simp at hb; rcases hb with h | h | h | h <;> omega

theorem stringToBytes_lt_256 (s : List Char) : ∀ b ∈ stringToBytes s, b < 256 := by
  intro b hb
  simp only [stringToBytes, List.mem_flatMap] at hb
  obtain ⟨c, _, hmem⟩ := hb
  exact utf8EncodeChar_lt_256 c b hmem

/-! ## JSON (platform `JSON.stringify` / `JSON.parse`) -/

/-- Opening curly brace, via its code point to keep string literals plain. -/
def openBrace : Char := Char.ofNat 123

/-- Closing curly brace. -/
def closeBrace : Char := Char.ofNat 125

/-- Modelled from the spec: JSON-representable values (the `unknown` data the
pipeline serializes with `JSON.stringify` / `JSON.parse`). -/
inductive Json where
  | null : Json
  | bool (b : Bool) : Json
  | num (n : Int) : Json
  | str (s : List Char) : Json
  | arr (elems : List Json) : Json
  | obj (members : List (List Char × Json)) : Json

def hexDigitChar (n : Nat) : Char := "0123456789abcdef".toList.getD n '0'

/-- JSON string escaping as `JSON.stringify` performs it. -/
def escapeChar (c : Char) : List Char :=
  if c = '"' then ['\\', '"']
  else if c = '\\' then ['\\', '\\']
  else if c = Char.ofNat 8 then ['\\', 'b']
  else if c = Char.ofNat 9 then ['\\', 't']
  else if c = Char.ofNat 10 then ['\\', 'n']
  else if c = Char.ofNat 12 then ['\\', 'f']
  else if c = Char.ofNat 13 then ['\\', 'r']
  else if c.toNat < 32 then
    ['\\', 'u', '0', '0', hexDigitChar (c.toNat / 16), hexDigitChar (c.toNat % 16)]
  else [c]

def printStringBody (s : List Char) : List Char := s.flatMap escapeChar

def printString (s : List Char) : List Char := '"' :: (printStringBody s ++ ['"'])

/-- Decimal digits (least significant first); the first argument is fuel. -/
def natDigitsAux : Nat → Nat → List Nat
  | 0, _ => []
  | fuel + 1, n => if n = 0 then [] else n % 10 :: natDigitsAux fuel (n / 10)

def printNat (n : Nat) : List Char :=
  if n = 0 then ['0'] else (natDigitsAux n n).reverse.map (fun d => Char.ofNat (48 + d))

def printInt (i : Int) : List Char :=
  if i < 0 then '-' :: printNat i.natAbs else printNat i.natAbs

mutual
/-- `JSON.stringify` (no extra spacing). -/
def printJson : Json → List Char
  | .null => "null".toList
  | .bool true => "true".toList
  | .bool false => "false".toList
  | .num i => printInt i
  | .str s => printString s
  | .arr xs => '[' :: (printElems xs ++ [']'])
  | .obj kvs => openBrace :: (printMembers kvs ++ [closeBrace])

/-- Comma-separated array elements. -/
def printElems : List Json → List Char
  | [] => []
  | [x] => printJson x
  | x :: y :: rest => printJson x ++ ',' :: printElems (y :: rest)

/-- Comma-separated `key:value` object members. -/
def printMembers : List (List Char × Json) → List Char
  | [] => []
  | [(k, v)] => printString k ++ ':' :: printJson v
  | (k, v) :: m :: rest => printString k ++ ':' :: (printJson v ++ ',' :: printMembers (m :: rest))
end

mutual
/-- Node count of a JSON value, used to size parser fuel. -/
def sizeJ : Json → Nat
  | .null | .bool _ | .num _ | .str _ => 1
  | .arr xs => 1 + sizeL xs
  | .obj kvs => 1 + sizeM kvs

def sizeL : List Json → Nat
  | [] => 0
  | x :: rest => 1 + sizeJ x + sizeL rest

def sizeM : List (List Char × Json) → Nat
  | [] => 0
  | (_, v) :: rest => 1 + sizeJ v + sizeM rest
end

/-! ### Parser (`JSON.parse`, restricted to the printer's output language) -/

def hexVal (c : Char) : Option Nat := lookupIdx "0123456789abcdef".toList c

def isDigitChar (c : Char) : Bool := 48 ≤ c.toNat && c.toNat ≤ 57

def digitVal (c : Char) : Nat := c.toNat - 48

/-- Consume a maximal run of decimal digits, accumulating their value. -/
def parseDigits : List Char → Nat → Nat × List Char
  | [], acc => (acc, [])
  | c :: rest, acc =>
      if isDigitChar c then parseDigits rest (acc * 10 + digitVal c) else (acc, c :: rest)

/-- Parse the body of a JSON string after the opening quote, undoing escapes. -/
def parseStringBody : List Char → Option (List Char × List Char)
  | [] => Option.none
  | '\\' :: 'u' :: h1 :: h2 :: h3 :: h4 :: rest =>
      (hexVal h1).bind fun v1 =>
      (hexVal h2).bind fun v2 =>
      (hexVal h3).bind fun v3 =>
      (hexVal h4).bind fun v4 =>
      (parseStringBody rest).map fun p =>
        (Char.ofNat (v1 * 4096 + v2 * 256 + v3 * 16 + v4) :: p.1, p.2)
  | '\\' :: e :: rest =>
      if e = '"' then (parseStringBody rest).map fun p => ('"' :: p.1, p.2)
      else if e = '\\' then (parseStringBody rest).map fun p => ('\\' :: p.1, p.2)
      else if e = 'b' then (parseStringBody rest).map fun p => (Char.ofNat 8 :: p.1, p.2)
      else if e = 't' then (parseStringBody rest).map fun p => (Char.ofNat 9 :: p.1, p.2)
      else if e = 'n' then (parseStringBody rest).map fun p => (Char.ofNat 10 :: p.1, p.2)
      else if e = 'f' then (parseStringBody rest).map fun p => (Char.ofNat 12 :: p.1, p.2)
      else if e = 'r' then (parseStringBody rest).map fun p => (Char.ofNat 13 :: p.1, p.2)
      else Option.none
  | c :: rest =>
      if c = '"' then some ([], rest)
      else (parseStringBody rest).map fun p => (c :: p.1, p.2)

/-- Strip an expected literal from the front of the input. -/
def stripLit : List Char → List Char → Option (List Char)
  | [], s => some s
  | l :: ls, c :: rest => if c = l then stripLit ls rest else Option.none
  | _ :: _, [] => Option.none

/-- Parse an unsigned decimal number (at least one digit required). -/
def parseNumBody : List Char → Option (Nat × List Char)
  | [] => Option.none
  | c :: rest => if isDigitChar c then some (parseDigits (c :: rest) 0) else Option.none

mutual
/-- Fueled JSON value parser. -/
def parseVal : Nat → List Char → Option (Json × List Char)
  | 0, _ => Option.none
  | _ + 1, [] => Option.none
  | f + 1, c :: rest =>
      if c = 'n' then (stripLit ['u', 'l', 'l'] rest).map (fun r => (Json.null, r))
      else if c = 't' then (stripLit ['r', 'u', 'e'] rest).map (fun r => (Json.bool true, r))
      else if c = 'f' then (stripLit ['a', 'l', 's', 'e'] rest).map (fun r => (Json.bool false, r))
      else if c = '"' then (parseStringBody rest).map (fun p => (Json.str p.1, p.2))
      else if c = '[' then
        if rest.head? = some ']' then some (Json.arr [], rest.tail)
        else (parseElems f rest).map (fun p => (Json.arr p.1, p.2))
      else if c = openBrace then
        if rest.head? = some closeBrace then some (Json.obj [], rest.tail)
        else (parseMembers f rest).map (fun p => (Json.obj p.1, p.2))
      else if c = '-' then
        (parseNumBody rest).map (fun p => (Json.num (-(p.1 : Int)), p.2))
      else if isDigitChar c then
        some (Json.num ((parseDigits (c :: rest) 0).1 : Int), (parseDigits (c :: rest) 0).2)
      else Option.none

/-- Parse one or more comma-separated values terminated by a closing bracket. -/
def parseElems : Nat → List Char → Option (List Json × List Char)
  | 0, _ => Option.none
  | f + 1, s =>
      (parseVal f s).bind fun p =>
        if p.2.head? = some ',' then
          (parseElems f p.2.tail).map (fun q => (p.1 :: q.1, q.2))
        else if p.2.head? = some ']' then some ([p.1], p.2.tail)
        else Option.none

/-- Parse one or more comma-separated `key:value` members terminated by a closing brace. -/
def parseMembers : Nat → List Char → Option (List (List Char × Json) × List Char)
  | 0, _ => Option.none
  | f + 1, s =>
      if s.head? = some '"' then
        (parseStringBody s.tail).bind fun kp =>
          if kp.2.head? = some ':' then
            (parseVal f kp.2.tail).bind fun vp =>
              if vp.2.head? = some ',' then
                (parseMembers f vp.2.tail).map (fun q => ((kp.1, vp.1) :: q.1, q.2))
              else if vp.2.head? = some closeBrace then some ([(kp.1, vp.1)], vp.2.tail)
              else Option.none
          else Option.none
      else Option.none
end

/-- `JSON.parse`, accepting exactly one value spanning the whole input. -/
def jsonParse (s : List Char) : Option Json :=
  match parseVal (s.length + 1) s with
  | some (j, []) => some j
  | _ => Option.none


/-! ### Digit lemmas -/

def noDigitHead (l : List Char) : Prop := ∀ c, l.head? = some c → isDigitChar c = false

theorem noDigitHead_nil : noDigitHead [] := by intro c hc; simp at hc

theorem noDigitHead_cons {c : Char} (h : isDigitChar c = false) (l : List Char) :
    noDigitHead (c :: l) := by
  intro d hd; simp at hd; subst hd; exact h

theorem natDigitsAux_lt10 : ∀ fuel n, ∀ d ∈ natDigitsAux fuel n, d < 10 := by
  intro fuel
  induction fuel with
  | zero => intro n d hd; simp [natDigitsAux] at hd
  | succ f ih =>
      intro n d hd
      rw [natDigitsAux] at hd
      by_cases h : n = 0
      · simp [h] at hd
      · rw [if_neg h] at hd
        rcases List.mem_cons.mp hd with h' | h'
        · omega
        · exact ih (n / 10) d h'

theorem natDigitsAux_foldl : ∀ fuel n acc, n ≤ fuel →
    ((natDigitsAux fuel n).reverse).foldl (fun a d => a * 10 + d) acc =
      acc * 10 ^ (natDigitsAux fuel n).length + n := by
  intro fuel
  induction fuel with
  | zero =>
      intro n acc hn
      have : n = 0 := by omega
      subst this
      simp [natDigitsAux]
  | succ f ih =>
      intro n acc hn
      rw [natDigitsAux]
      by_cases h : n = 0
      · subst h; simp
      · rw [if_neg h]
        have hdiv : n / 10 ≤ f := by omega
        simp only [List.reverse_cons, List.foldl_append, List.foldl_cons, List.foldl_nil,
          List.length_cons]
        rw [ih (n / 10) acc hdiv, pow_succ, ← mul_assoc]
        generalize acc * 10 ^ (natDigitsAux f (n / 10)).length = M
        omega

theorem digitVal_ofNat {d : Nat} (h : d < 10) : digitVal (Char.ofNat (48 + d)) = d := by
  interval_cases d <;> decide

theorem isDigitChar_ofNat {d : Nat} (h : d < 10) : isDigitChar (Char.ofNat (48 + d)) = true := by
  interval_cases d <;> decide

theorem printNat_ne_nil (n : Nat) : printNat n ≠ [] := by
  rw [printNat]
  by_cases h : n = 0
  · simp [h]
  · rw [if_neg h]
    obtain ⟨m, rfl⟩ : ∃ m, n = m + 1 := ⟨n - 1, by omega⟩
    rw [natDigitsAux, if_neg h]
    simp

theorem printNat_digits (n : Nat) : ∀ c ∈ printNat n, isDigitChar c = true := by
  intro c hc
  rw [printNat] at hc
  by_cases h : n = 0
  · simp [h] at hc; subst hc; decide
  · rw [if_neg h] at hc
    simp only [List.mem_map, List.mem_reverse] at hc
    obtain ⟨d, hd, rfl⟩ := hc
    exact isDigitChar_ofNat (natDigitsAux_lt10 n n d hd)

theorem printNat_foldl (n : Nat) :
    (printNat n).foldl (fun a c => a * 10 + digitVal c) 0 = n := by
  rw [printNat]
  by_cases h : n = 0
  · simp [h]; decide
  · rw [if_neg h]
    rw [List.foldl_map]
    have hcong : ∀ d ∈ (natDigitsAux n n).reverse, ∀ a : Nat,
        a * 10 + digitVal (Char.ofNat (48 + d)) = a * 10 + d := by
      intro d hd a
      rw [digitVal_ofNat (natDigitsAux_lt10 n n d (List.mem_reverse.mp hd))]
    calc ((natDigitsAux n n).reverse).foldl (fun a d => a * 10 + digitVal (Char.ofNat (48 + d))) 0
        = ((natDigitsAux n n).reverse).foldl (fun a d => a * 10 + d) 0 := by
          apply List.foldl_ext
          intro a d hd
          exact hcong d hd a
      _ = n := by rw [natDigitsAux_foldl n n 0 (le_refl n)]; simp

theorem parseDigits_append : ∀ ds rest acc, (∀ c ∈ ds, isDigitChar c = true) →
    noDigitHead rest →
    parseDigits (ds ++ rest) acc = (ds.foldl (fun a c => a * 10 + digitVal c) acc, rest) := by
  intro ds
  induction ds with
  | nil =>
      intro rest acc _ hnd
      cases rest with
      | nil => simp [parseDigits]
      | cons c r =>
          have : isDigitChar c = false := hnd c rfl
          simp [parseDigits, this]
  | cons d ds' ih =>
      intro rest acc hds hnd
      have hd : isDigitChar d = true := hds d (by simp)
      simp only [List.cons_append]
      rw [parseDigits, if_pos hd]
      rw [ih rest (acc * 10 + digitVal d) (fun c hc => hds c (by simp [hc])) hnd]
      simp

/-! ### String round-trip -/

theorem hexVal_hexDigitChar : ∀ v, v < 16 → hexVal (hexDigitChar v) = some v := by decide

theorem psb_quote (Y : List Char) : parseStringBody ('"' :: Y) = some ([], Y) := rfl

theorem psb_esc_quote (Y : List Char) :
    parseStringBody ('\\' :: '"' :: Y) = (parseStringBody Y).map fun p => ('"' :: p.1, p.2) := rfl

theorem psb_esc_bs (Y : List Char) :
    parseStringBody ('\\' :: '\\' :: Y) = (parseStringBody Y).map fun p => ('\\' :: p.1, p.2) := rfl

theorem psb_esc_b (Y : List Char) :
    parseStringBody ('\\' :: 'b' :: Y) =
      (parseStringBody Y).map fun p => (Char.ofNat 8 :: p.1, p.2) := rfl

theorem psb_esc_t (Y : List Char) :
    parseStringBody ('\\' :: 't' :: Y) =
      (parseStringBody Y).map fun p => (Char.ofNat 9 :: p.1, p.2) := rfl

theorem psb_esc_n (Y : List Char) :
    parseStringBody ('\\' :: 'n' :: Y) =
      (parseStringBody Y).map fun p => (Char.ofNat 10 :: p.1, p.2) := rfl

theorem psb_esc_f (Y : List Char) :
    parseStringBody ('\\' :: 'f' :: Y) =
      (parseStringBody Y).map fun p => (Char.ofNat 12 :: p.1, p.2) := rfl

theorem psb_esc_r (Y : List Char) :
    parseStringBody ('\\' :: 'r' :: Y) =
      (parseStringBody Y).map fun p => (Char.ofNat 13 :: p.1, p.2) := rfl

theorem psb_esc_u (a b d e : Char) (Y : List Char) :
    parseStringBody ('\\' :: 'u' :: a :: b :: d :: e :: Y) =
      ((hexVal a).bind fun v1 =>
       (hexVal b).bind fun v2 =>
       (hexVal d).bind fun v3 =>
       (hexVal e).bind fun v4 =>
       (parseStringBody Y).map fun p =>
         (Char.ofNat (v1 * 4096 + v2 * 256 + v3 * 16 + v4) :: p.1, p.2)) := rfl

theorem psb_other {c : Char} (h1 : c ≠ '"') (h2 : c ≠ '\\') (Y : List Char) :
    parseStringBody (c :: Y) = (parseStringBody Y).map fun p => (c :: p.1, p.2) := by
  rw [parseStringBody]
  · rw [if_neg h1]
  · intro x1 x2 x3 x4 x5 hc _
    exact h2 hc
  · intro e r hc _
    exact h2 hc

theorem parseStringBody_print :
    ∀ s rest, parseStringBody (printStringBody s ++ '"' :: rest) = some (s, rest) := by
  intro s
  induction s with
  | nil =>
      intro rest
      have h : printStringBody [] = [] := rfl
      rw [h, List.nil_append, psb_quote]
  | cons c s' ih =>
      intro rest
      have hps : printStringBody (c :: s') = escapeChar c ++ printStringBody s' := by
        simp [printStringBody]
      rw [hps, List.append_assoc]
      rw [escapeChar]
      by_cases h1 : c = '"'
      · rw [if_pos h1]
        simp only [List.cons_append, List.nil_append]
        rw [psb_esc_quote, ih rest, h1]
        rfl
      · rw [if_neg h1]
        by_cases h2 : c = '\\'
        · rw [if_pos h2]
          simp only [List.cons_append, List.nil_append]
          rw [psb_esc_bs, ih rest, h2]
          rfl
        · rw [if_neg h2]
          by_cases h3 : c = Char.ofNat 8
          · rw [if_pos h3]
            simp only [List.cons_append, List.nil_append]
            rw [psb_esc_b, ih rest, h3]
            rfl
          · rw [if_neg h3]
            by_cases h4 : c = Char.ofNat 9
            · rw [if_pos h4]
              simp only [List.cons_append, List.nil_append]
              rw [psb_esc_t, ih rest, h4]
              rfl
            · rw [if_neg h4]
              by_cases h5 : c = Char.ofNat 10
              · rw [if_pos h5]
                simp only [List.cons_append, List.nil_append]
                rw [psb_esc_n, ih rest, h5]
                rfl
              · rw [if_neg h5]
                by_cases h6 : c = Char.ofNat 12
                · rw [if_pos h6]
                  simp only [List.cons_append, List.nil_append]
                  rw [psb_esc_f, ih rest, h6]
                  rfl
                · rw [if_neg h6]
                  by_cases h7 : c = Char.ofNat 13
                  · rw [if_pos h7]
                    simp only [List.cons_append, List.nil_append]
                    rw [psb_esc_r, ih rest, h7]
                    rfl
                  · rw [if_neg h7]
                    by_cases h8 : c.toNat < 32
                    · rw [if_pos h8]
                      simp only [List.cons_append, List.nil_append]
                      rw [psb_esc_u]
                      rw [show hexVal '0' = some 0 from rfl]
                      rw [hexVal_hexDigitChar (c.toNat / 16) (by omega),
                        hexVal_hexDigitChar (c.toNat % 16) (by omega)]
                      simp only [Option.some_bind]
                      rw [ih rest]
                      have e : 0 * 4096 + 0 * 256 + c.toNat / 16 * 16 + c.toNat % 16 = c.toNat := by
                        omega
                      rw [e, Char.ofNat_toNat]
                      rfl
                    · rw [if_neg h8]
                      simp only [List.cons_append, List.nil_append]
                      rw [psb_other h1 h2, ih rest]
                      rfl

/-! ### Head-character and size lemmas -/

theorem digit_ne {c : Char} (h : isDigitChar c = true) :
    c ≠ 'n' ∧ c ≠ 't' ∧ c ≠ 'f' ∧ c ≠ '"' ∧ c ≠ '[' ∧ c ≠ openBrace ∧ c ≠ '-' ∧
      c ≠ ']' ∧ c ≠ closeBrace := by
  refine ⟨?_, ?_, ?_, ?_, ?_, ?_, ?_, ?_, ?_⟩ <;> (rintro rfl; revert h; decide)

theorem printNat_cons (n : Nat) :
    ∃ c t, printNat n = c :: t ∧ isDigitChar c = true := by
  cases hp : printNat n with
  | nil => exact absurd hp (printNat_ne_nil n)
  | cons c t =>
      refine ⟨c, t, rfl, printNat_digits n c ?_⟩
      rw [hp]
      simp

theorem printJson_head (j : Json) :
    ∃ c t, printJson j = c :: t ∧ c ≠ ']' ∧ c ≠ closeBrace := by
  cases j with
  | null => exact ⟨'n', _, rfl, by decide, by decide⟩
  | bool b => cases b
              · exact ⟨'f', _, rfl, by decide, by decide⟩
              · exact ⟨'t', _, rfl, by decide, by decide⟩
  | num i =>
      have hp : printJson (Json.num i) = printInt i := rfl
      rw [hp, printInt]
      by_cases h : i < 0
      · rw [if_pos h]
        exact ⟨'-', _, rfl, by decide, by decide⟩
      · rw [if_neg h]
        obtain ⟨c, t, hc, hdig⟩ := printNat_cons i.natAbs
        exact ⟨c, t, hc, (digit_ne hdig).2.2.2.2.2.2.2.1, (digit_ne hdig).2.2.2.2.2.2.2.2⟩
  | str s => exact ⟨'"', _, rfl, by decide, by decide⟩
  | arr xs => exact ⟨'[', _, rfl, by decide, by decide⟩
  | obj kvs => exact ⟨openBrace, _, rfl, by decide, by decide⟩

theorem printElems_head (x : Json) (xs : List Json) :
    ∃ c t, printElems (x :: xs) = c :: t ∧ c ≠ ']' ∧ c ≠ closeBrace := by
  obtain ⟨c, t, hc, h1, h2⟩ := printJson_head x
  cases xs with
  | nil => exact ⟨c, t, hc, h1, h2⟩
  | cons y rest =>
      refine ⟨c, t ++ ',' :: printElems (y :: rest), ?_, h1, h2⟩
      rw [printElems, hc]
      simp

theorem sizeJ_pos (j : Json) : 1 ≤ sizeJ j := by
  cases j <;> simp [sizeJ]

/-! ### Parser step lemmas -/

theorem pv_null (f : Nat) (Y : List Char) :
    parseVal (f + 1) ('n' :: Y) = (stripLit ['u', 'l', 'l'] Y).map (fun r => (Json.null, r)) := rfl

theorem pv_true (f : Nat) (Y : List Char) :
    parseVal (f + 1) ('t' :: Y) =
      (stripLit ['r', 'u', 'e'] Y).map (fun r => (Json.bool true, r)) := rfl

theorem pv_false (f : Nat) (Y : List Char) :
    parseVal (f + 1) ('f' :: Y) =
      (stripLit ['a', 'l', 's', 'e'] Y).map (fun r => (Json.bool false, r)) := rfl

theorem pv_quote (f : Nat) (Y : List Char) :
    parseVal (f + 1) ('"' :: Y) = (parseStringBody Y).map (fun p => (Json.str p.1, p.2)) := rfl

theorem pv_lbrack (f : Nat) (Y : List Char) :
    parseVal (f + 1) ('[' :: Y) =
      (if Y.head? = some ']' then some (Json.arr [], Y.tail)
       else (parseElems f Y).map (fun p => (Json.arr p.1, p.2))) := rfl

theorem pv_lbrace (f : Nat) (Y : List Char) :
    parseVal (f + 1) (openBrace :: Y) =
      (if Y.head? = some closeBrace then some (Json.obj [], Y.tail)
       else (parseMembers f Y).map (fun p => (Json.obj p.1, p.2))) := rfl

theorem pv_minus (f : Nat) (Y : List Char) :
    parseVal (f + 1) ('-' :: Y) =
      (parseNumBody Y).map (fun p => (Json.num (-(p.1 : Int)), p.2)) := rfl

theorem pv_digit {c : Char} (h : isDigitChar c = true) (f : Nat) (Y : List Char) :
    parseVal (f + 1) (c :: Y) =
      some (Json.num ((parseDigits (c :: Y) 0).1 : Int), (parseDigits (c :: Y) 0).2) := by
  obtain ⟨hn, ht, hf, hq, hk, hb, hm, _, _⟩ := digit_ne h
  rw [parseVal, if_neg hn, if_neg ht, if_neg hf, if_neg hq, if_neg hk, if_neg hb, if_neg hm,
    if_pos h]

theorem parseNumBody_printNat (n : Nat) (rest : List Char) (hnd : noDigitHead rest) :
    parseNumBody (printNat n ++ rest) = some (n, rest) := by
  obtain ⟨c, t, hc, hdig⟩ := printNat_cons n
  rw [hc, List.cons_append, parseNumBody, if_pos hdig, ← List.cons_append, ← hc]
  rw [parseDigits_append (printNat n) rest 0 (printNat_digits n) hnd, printNat_foldl]

/-! ### Main parse/print round-trip -/

theorem parse_print (fuel : Nat) :
    (∀ j rest, sizeJ j ≤ fuel → noDigitHead rest →
      parseVal fuel (printJson j ++ rest) = some (j, rest)) ∧
    (∀ xs rest, xs ≠ [] → sizeL xs ≤ fuel →
      parseElems fuel (printElems xs ++ ']' :: rest) = some (xs, rest)) ∧
    (∀ kvs rest, kvs ≠ [] → sizeM kvs ≤ fuel →
      parseMembers fuel (printMembers kvs ++ closeBrace :: rest) = some (kvs, rest)) := by
  induction fuel with
  | zero =>
      refine ⟨?_, ?_, ?_⟩
      · intro j rest hsz _
        exact absurd hsz (by have := sizeJ_pos j; omega)
      · intro xs rest hne hsz
        cases xs with
        | nil => exact absurd rfl hne
        | cons x t => rw [sizeL] at hsz; omega
      · intro kvs rest hne hsz
        cases kvs with
        | nil => exact absurd rfl hne
        | cons kv t =>
            obtain ⟨k, v⟩ := kv
            rw [sizeM] at hsz; omega
  | succ f ih =>
      obtain ⟨ihV, ihE, ihM⟩ := ih
      refine ⟨?_, ?_, ?_⟩
      · -- values
        intro j rest hsz hnd
        cases j with
        | null =>
            rw [show printJson Json.null = ['n', 'u', 'l', 'l'] from rfl]
            simp only [List.cons_append, List.nil_append]
            rw [pv_null]
            rfl
        | bool b =>
            cases b
            · rw [show printJson (Json.bool false) = ['f', 'a', 'l', 's', 'e'] from rfl]
              simp only [List.cons_append, List.nil_append]
              rw [pv_false]
              rfl
            · rw [show printJson (Json.bool true) = ['t', 'r', 'u', 'e'] from rfl]
              simp only [List.cons_append, List.nil_append]
              rw [pv_true]
              rfl
        | num i =>
            rw [show printJson (Json.num i) = printInt i from rfl, printInt]
            by_cases h : i < 0
            · rw [if_pos h]
              simp only [List.cons_append]
              rw [pv_minus, parseNumBody_printNat i.natAbs rest hnd]
              have e : -(i.natAbs : Int) = i := by omega
              simp only [Option.map_some', e]
            · rw [if_neg h]
              obtain ⟨c, t, hc, hdig⟩ := printNat_cons i.natAbs
              rw [hc, List.cons_append, pv_digit hdig, ← List.cons_append, ← hc]
              rw [parseDigits_append (printNat i.natAbs) rest 0 (printNat_digits i.natAbs) hnd,
                printNat_foldl]
              have e : ((i.natAbs : Int)) = i := by omega
              simp only [e]
        | str s =>
            rw [show printJson (Json.str s) = '"' :: (printStringBody s ++ ['"']) from rfl]
            simp only [List.cons_append, List.append_assoc, List.nil_append]
            rw [pv_quote, parseStringBody_print s rest]
            rfl
        | arr xs =>
            rw [show printJson (Json.arr xs) = '[' :: (printElems xs ++ [']']) from rfl]
            simp only [List.cons_append, List.append_assoc, List.nil_append]
            rw [pv_lbrack]
            cases xs with
            | nil =>
                rw [show printElems [] = [] from rfl]
                simp
            | cons x t =>
                obtain ⟨c, t', hc, hne1, _⟩ := printElems_head x t
                rw [hc]
                simp only [List.cons_append, List.head?_cons]
                rw [if_neg (by simp [hne1])]
                rw [← List.cons_append, ← hc]
                rw [ihE (x :: t) rest (by simp) (by rw [sizeJ] at hsz; omega)]
                rfl
        | obj kvs =>
            rw [show printJson (Json.obj kvs) = openBrace :: (printMembers kvs ++ [closeBrace])
              from rfl]
            simp only [List.cons_append, List.append_assoc, List.nil_append]
            rw [pv_lbrace]
            cases kvs with
            | nil =>
                rw [show printMembers [] = [] from rfl]
                simp
            | cons kv t =>
                obtain ⟨k, v⟩ := kv
                have hsm : sizeM ((k, v) :: t) ≤ f := by rw [sizeJ] at hsz; omega
                have hpm := ihM ((k, v) :: t) rest (by simp) hsm
                have hstart : ∃ t', printMembers ((k, v) :: t) = '"' :: t' := by
                  cases t with
                  | nil =>
                      rw [show printMembers [(k, v)] = printString k ++ ':' :: printJson v
                        from rfl, printString]
                      exact ⟨_, rfl⟩
                  | cons m t' =>
                      rw [show printMembers ((k, v) :: m :: t') =
                        printString k ++ ':' :: (printJson v ++ ',' :: printMembers (m :: t'))
                        from rfl, printString]
                      exact ⟨_, rfl⟩
                obtain ⟨t', ht'⟩ := hstart
                rw [ht']
                simp only [List.cons_append, List.head?_cons]
                rw [if_neg (by decide)]
                rw [← List.cons_append, ← ht', hpm]
                rfl
      · -- array elements
        intro xs rest hne hsz
        cases xs with
        | nil => exact absurd rfl hne
        | cons x t =>
            cases t with
            | nil =>
                rw [show printElems [x] = printJson x from rfl]
                rw [parseElems]
                rw [ihV x (']' :: rest) (by rw [sizeL, sizeL] at hsz; omega)
                  (noDigitHead_cons (by decide) rest)]
                rw [Option.some_bind]
                simp
            | cons y t' =>
                rw [show printElems (x :: y :: t') = printJson x ++ ',' :: printElems (y :: t')
                  from rfl]
                simp only [List.append_assoc, List.cons_append]
                rw [parseElems]
                rw [ihV x (',' :: (printElems (y :: t') ++ ']' :: rest))
                  (by rw [sizeL] at hsz; omega) (noDigitHead_cons (by decide) _)]
                rw [Option.some_bind]
                have hE := ihE (y :: t') rest (by simp) (by rw [sizeL] at hsz; omega)
                simp [hE]
      · -- object members
        intro kvs rest hne hsz
        cases kvs with
        | nil => exact absurd rfl hne
        | cons kv t =>
            obtain ⟨k, v⟩ := kv
            cases t with
            | nil =>
                rw [show printMembers [(k, v)] = printString k ++ ':' :: printJson v from rfl,
                  printString]
                simp only [List.cons_append, List.append_assoc, List.nil_append]
                rw [parseMembers]
                simp only [List.head?_cons, List.tail_cons]
                rw [if_true]
                rw [parseStringBody_print k (':' :: (printJson v ++ closeBrace :: rest))]
                rw [Option.some_bind]
                simp only [List.head?_cons, List.tail_cons]
                rw [if_true]
                rw [ihV v (closeBrace :: rest) (by rw [sizeM, sizeM] at hsz; omega)
                  (noDigitHead_cons (by decide) _)]
                rw [Option.some_bind]
                simp only [List.head?_cons, List.tail_cons]
                rw [if_neg (by decide)]
                simp
            | cons m t' =>
                rw [show printMembers ((k, v) :: m :: t') =
                  printString k ++ ':' :: (printJson v ++ ',' :: printMembers (m :: t'))
                  from rfl, printString]
                simp only [List.cons_append, List.append_assoc, List.nil_append]
                rw [parseMembers]
                simp only [List.head?_cons, List.tail_cons]
                rw [if_true]
                rw [parseStringBody_print k
                  (':' :: (printJson v ++ ',' :: (printMembers (m :: t') ++ closeBrace :: rest)))]
                rw [Option.some_bind]
                simp only [List.head?_cons, List.tail_cons]
                rw [if_true]
                rw [ihV v (',' :: (printMembers (m :: t') ++ closeBrace :: rest))
                  (by rw [sizeM] at hsz; omega) (noDigitHead_cons (by decide) _)]
                rw [Option.some_bind]
                simp only [List.head?_cons, List.tail_cons]
                have hM := ihM (m :: t') rest (by simp) (by rw [sizeM] at hsz; omega)
                simp [hM]

theorem size_le_print (n : Nat) :
    (∀ j, sizeJ j ≤ n → sizeJ j ≤ (printJson j).length) ∧
    (∀ xs, sizeL xs ≤ n → sizeL xs ≤ (printElems xs).length + 1) ∧
    (∀ kvs, sizeM kvs ≤ n → sizeM kvs ≤ (printMembers kvs).length + 1) := by
  induction n with
  | zero =>
      refine ⟨?_, ?_, ?_⟩
      · intro j hsz; exact absurd hsz (by have := sizeJ_pos j; omega)
      · intro xs hsz
        cases xs with
        | nil => simp [sizeL]
        | cons x t => rw [sizeL] at hsz; exact absurd hsz (by have := sizeJ_pos x; omega)
      · intro kvs hsz
        cases kvs with
        | nil => simp [sizeM]
        | cons kv t =>
            obtain ⟨k, v⟩ := kv
            rw [sizeM] at hsz; exact absurd hsz (by have := sizeJ_pos v; omega)
  | succ n ih =>
      obtain ⟨ihJ, ihL, ihM⟩ := ih
      refine ⟨?_, ?_, ?_⟩
      · intro j hsz
        cases j with
        | null => simp [sizeJ, printJson]
        | bool b => cases b <;> simp [sizeJ, printJson]
        | num i =>
            obtain ⟨c, t, hc, _, _⟩ := printJson_head (Json.num i)
            rw [show sizeJ (Json.num i) = 1 from rfl, hc]
            simp
        | str s =>
            rw [show sizeJ (Json.str s) = 1 from rfl,
              show printJson (Json.str s) = '"' :: (printStringBody s ++ ['"']) from rfl]
            simp
        | arr xs =>
            rw [show printJson (Json.arr xs) = '[' :: (printElems xs ++ [']']) from rfl,
              show sizeJ (Json.arr xs) = 1 + sizeL xs from rfl]
            have h := ihL xs (by rw [sizeJ] at hsz; omega)
            simp only [List.length_cons, List.length_append, List.length_singleton]
            omega
        | obj kvs =>
            rw [show printJson (Json.obj kvs) = openBrace :: (printMembers kvs ++ [closeBrace])
              from rfl, show sizeJ (Json.obj kvs) = 1 + sizeM kvs from rfl]
            have h := ihM kvs (by rw [sizeJ] at hsz; omega)
            simp only [List.length_cons, List.length_append, List.length_singleton]
            omega
      · intro xs hsz
        cases xs with
        | nil => simp [sizeL]
        | cons x t =>
            cases t with
            | nil =>
                rw [show printElems [x] = printJson x from rfl, show sizeL [x] = 1 + sizeJ x + 0
                  from rfl]
                have h := ihJ x (by rw [sizeL, sizeL] at hsz; omega)
                omega
            | cons y t' =>
                rw [show printElems (x :: y :: t') = printJson x ++ ',' :: printElems (y :: t')
                  from rfl, show sizeL (x :: y :: t') = 1 + sizeJ x + sizeL (y :: t') from rfl]
                have h1 := ihJ x (by rw [sizeL] at hsz; have := sizeJ_pos x; omega)
                have h2 := ihL (y :: t') (by rw [sizeL] at hsz; omega)
                simp only [List.length_append, List.length_cons]
                omega
      · intro kvs hsz
        cases kvs with
        | nil => simp [sizeM]
        | cons kv t =>
            obtain ⟨k, v⟩ := kv
            cases t with
            | nil =>
                rw [show printMembers [(k, v)] = printString k ++ ':' :: printJson v from rfl,
                  show sizeM [(k, v)] = 1 + sizeJ v + 0 from rfl]
                have h := ihJ v (by rw [sizeM, sizeM] at hsz; omega)
                simp only [List.length_append, List.length_cons]
                omega
            | cons m t' =>
                rw [show printMembers ((k, v) :: m :: t') =
                  printString k ++ ':' :: (printJson v ++ ',' :: printMembers (m :: t')) from rfl,
                  show sizeM ((k, v) :: m :: t') = 1 + sizeJ v + sizeM (m :: t') from rfl]
                have h1 := ihJ v (by rw [sizeM] at hsz; have := sizeJ_pos v; omega)
                have h2 := ihM (m :: t') (by rw [sizeM] at hsz; omega)
                simp only [List.length_append, List.length_cons]
                omega

/-- `JSON.parse ∘ JSON.stringify` is the identity on JSON values. -/
theorem jsonParse_printJson (j : Json) : jsonParse (printJson j) = some j := by
  rw [jsonParse]
  have hsz : sizeJ j ≤ (printJson j).length + 1 := by
    have := (size_le_print (sizeJ j)).1 j (le_refl _)
    omega
  have h := (parse_print ((printJson j).length + 1)).1 j [] hsz noDigitHead_nil
  rw [List.append_nil] at h
  rw [h]

/-! ## Token metadata (src/utils/metadata.ts) -/

inductive EncryptionAlgorithm where
  | aesGcm256 : EncryptionAlgorithm
deriving DecidableEq

inductive CompressionAlgorithm where
  | none : CompressionAlgorithm
  | brotli : CompressionAlgorithm
  | lzString : CompressionAlgorithm
  | zlib : CompressionAlgorithm
deriving DecidableEq

structure TokenMetadata where
  version : Nat
  algorithm : EncryptionAlgorithm
  compression : CompressionAlgorithm
  timestamp : Option Nat := Option.none
  ttl : Option Nat := Option.none
deriving DecidableEq

/-- `ALGORITHM_MAP`. -/
def algorithmIdOf : EncryptionAlgorithm → Nat
  | .aesGcm256 => 1

/-- `ALGORITHM_REVERSE_MAP`. -/
def algorithmOfId : Nat → Option EncryptionAlgorithm
  | 1 => some .aesGcm256
  | _ => Option.none

/-- `COMPRESSION_MAP`. -/
def compressionIdOf : CompressionAlgorithm → Nat
  | .none => 0
  | .brotli => 1
  | .lzString => 2
  | .zlib => 3

/-- `COMPRESSION_REVERSE_MAP`. -/
def compressionOfId : Nat → Option CompressionAlgorithm
  | 0 => some .none
  | 1 => some .brotli
  | 2 => some .lzString
  | 3 => some .zlib
  | _ => Option.none

/-- `DataView.setUint32` big-endian: four bytes, most significant first. -/
def u32be (n : Nat) : List Nat :=
  [n / 16777216 % 256, n / 65536 % 256, n / 256 % 256, n % 256]

/-- `DataView.getUint32` big-endian. -/
def readU32 (b0 b1 b2 b3 : Nat) : Nat := b0 * 16777216 + b1 * 65536 + b2 * 256 + b3

/-- `packMetadata` — header byte layout plus optional big-endian fields; a
`Uint8Array` store truncates modulo 256, and `setUint32` modulo 2^32. -/
def packMetadata (m : TokenMetadata) : List Nat :=
  let flags := (if m.timestamp.isSome then 1 else 0) + (if m.ttl.isSome then 2 else 0)
  [m.version % 256, algorithmIdOf m.algorithm, compressionIdOf m.compression, flags]
    ++ (match m.timestamp with
        | some ts => u32be (ts / 1000 % 4294967296)
        | Option.none => [])
    ++ (match m.ttl with
        | some t => u32be (t % 4294967296)
        | Option.none => [])

/-- `unpackMetadata`. -/
def unpackMetadata (data : List Nat) : Except String TokenMetadata :=
  if data.length < 4 then .error "Invalid metadata: too short"
  else
    let version := data.getD 0 0
    let aid := data.getD 1 0
    let cid := data.getD 2 0
    let flags := data.getD 3 0
    match algorithmOfId aid with
    | Option.none => .error ("Unknown algorithm ID: " ++ toString aid)
    | some algorithm =>
      match compressionOfId cid with
      | Option.none => .error ("Unknown compression ID: " ++ toString cid)
      | some compression =>
        if flags % 2 = 1 then
          if data.length < 8 then .error "Invalid metadata: missing timestamp bytes"
          else
            let ts := readU32 (data.getD 4 0) (data.getD 5 0) (data.getD 6 0) (data.getD 7 0)
              * 1000
            if flags / 2 % 2 = 1 then
              if data.length < 12 then .error "Invalid metadata: missing TTL bytes"
              else .ok (TokenMetadata.mk version algorithm compression (some ts)
                (some (readU32 (data.getD 8 0) (data.getD 9 0) (data.getD 10 0)
                  (data.getD 11 0))))
            else .ok (TokenMetadata.mk version algorithm compression (some ts) Option.none)
        else
          if flags / 2 % 2 = 1 then
            if data.length < 8 then .error "Invalid metadata: missing TTL bytes"
            else .ok (TokenMetadata.mk version algorithm compression Option.none
              (some (readU32 (data.getD 4 0) (data.getD 5 0) (data.getD 6 0) (data.getD 7 0))))
          else .ok (TokenMetadata.mk version algorithm compression Option.none Option.none)

/-- `getMetadataSize`. -/
def getMetadataSize (m : TokenMetadata) : Nat :=
  4 + (if m.timestamp.isSome then 4 else 0) + (if m.ttl.isSome then 4 else 0)

/-- `createDefaultMetadata`; `Date.now()` is the explicit `now` argument. -/
def createDefaultMetadata (compression : CompressionAlgorithm)
    (algorithm : EncryptionAlgorithm) (includeTimestamp : Bool) (ttl : Option Nat)
    (now : Nat) : TokenMetadata :=
  { version := 1, algorithm := algorithm, compression := compression,
    timestamp := if includeTimestamp then some now else Option.none, ttl := ttl }

theorem compressionOfId_idOf (c : CompressionAlgorithm) :
    compressionOfId (compressionIdOf c) = some c := by
  cases c <;> rfl

theorem packMetadata_length (m : TokenMetadata) :
    (packMetadata m).length = getMetadataSize m := by
  rw [packMetadata, getMetadataSize]
  rcases m.timestamp with _ | ts <;> rcases m.ttl with _ | t <;>
    simp [u32be, Option.isSome]

theorem packMetadata_lt_256 (m : TokenMetadata) : ∀ b ∈ packMetadata m, b < 256 := by
  obtain ⟨ver, alg, comp, mts, mttl⟩ := m
  intro b hb
  rw [packMetadata] at hb
  cases alg
  cases comp <;> rcases mts with _ | ts <;> rcases mttl with _ | t <;>
    (simp [u32be, algorithmIdOf, compressionIdOf] at hb; omega)

/-- Unpacking a packed metadata block (with any trailing bytes) recovers the
metadata, with the timestamp rounded down to whole seconds. -/
theorem unpackMetadata_packMetadata (m : TokenMetadata) (extra : List Nat)
    (hv : m.version < 256)
    (hts : ∀ ts ∈ m.timestamp, ts / 1000 < 4294967296)
    (httl : ∀ t ∈ m.ttl, t < 4294967296) :
    unpackMetadata (packMetadata m ++ extra) =
      .ok { m with timestamp := m.timestamp.map (fun ts => ts / 1000 * 1000) } := by
  obtain ⟨ver, alg, comp, mts, mttl⟩ := m
  cases alg
  have hv' : ver % 256 = ver := Nat.mod_eq_of_lt hv
  rcases mts with _ | ts <;> rcases mttl with _ | t
  · rw [packMetadata]
    simp [unpackMetadata, algorithmIdOf, algorithmOfId, compressionOfId_idOf, List.getD, hv']
  · have ht : t % 4294967296 = t := Nat.mod_eq_of_lt (httl t rfl)
    rw [packMetadata]
    simp [unpackMetadata, algorithmIdOf, algorithmOfId, compressionOfId_idOf, u32be, readU32,
      List.getD, hv']
    rw [if_neg (by omega), if_neg (by omega)]
    simp only [ht, Except.ok.injEq, TokenMetadata.mk.injEq, Option.some.injEq, and_true,
      true_and]
    omega
  · have hts' : ts / 1000 % 4294967296 = ts / 1000 := Nat.mod_eq_of_lt (hts ts rfl)
    rw [packMetadata]
    simp [unpackMetadata, algorithmIdOf, algorithmOfId, compressionOfId_idOf, u32be, readU32,
      List.getD, hv']
    rw [if_neg (by omega), if_neg (by omega)]
    simp only [hts', Except.ok.injEq, TokenMetadata.mk.injEq, Option.some.injEq, and_true,
      true_and]
    omega
  · have ht : t % 4294967296 = t := Nat.mod_eq_of_lt (httl t rfl)
    have hts' : ts / 1000 % 4294967296 = ts / 1000 := Nat.mod_eq_of_lt (hts ts rfl)
    rw [packMetadata]
    simp [unpackMetadata, algorithmIdOf, algorithmOfId, compressionOfId_idOf, u32be, readU32,
      List.getD, hv']
    rw [if_neg (by omega), if_neg (by omega), if_neg (by omega)]
    simp only [hts', ht, Except.ok.injEq, TokenMetadata.mk.injEq, Option.some.injEq, and_true,
      true_and]
    omega


/-! ## Key material and crypto engine (src/core/crypto.ts)

The AES-GCM and PBKDF2 primitives are platform services.  They are modelled
by concrete deterministic functions that satisfy the contracts stated in the
spec: PBKDF2 is a deterministic 32-byte function of (password, salt); AES-GCM
produces ciphertext of `plaintext length + 16` bytes whose final 16 bytes are
an authentication tag determined by (key, iv, plaintext), and decryption
verifies that tag and recovers the plaintext. -/

/-- `KeyMaterial`: a passphrase (`string`) or raw key bytes (`Uint8Array`). -/
inductive KeyMaterial where
  | passphrase (s : List Char) : KeyMaterial
  | raw (k : List Nat) : KeyMaterial

/-- `randomBytes(n)` — drawn from the explicit entropy stream. -/
def randomBytes (n : Nat) (ent : Nat → Nat) : List Nat :=
  (List.range n).map (fun i => ent i % 256)

/-- Advance the entropy stream past `n` consumed bytes. -/
def shiftEnt (n : Nat) (ent : Nat → Nat) : Nat → Nat := fun i => ent (i + n)

/-- Modelled from the spec: `deriveKeyFromPassword` (PBKDF2, SHA-256, 100000
iterations) — a deterministic 32-byte function of password and salt. -/
def deriveKeyFromPassword (password : List Char) (salt : List Nat) : List Nat :=
  (List.range 32).map (fun i =>
    (password.foldl (fun a c => a * 31 + c.toNat) 7 +
      salt.foldl (fun a b => a * 131 + b) 11 + i) % 256)

/-- Modelled from the spec: the 16-byte AES-GCM authentication tag, a
deterministic function of key, IV and plaintext. -/
def authTag (key iv pt : List Nat) : List Nat :=
  (List.range 16).map (fun i =>
    (key.foldl (fun a b => a * 131 + b) 3 + iv.foldl (fun a b => a * 131 + b) 5 +
      pt.foldl (fun a b => a * 131 + b) 7 + i) % 256)

/-- Modelled from the spec: AES-256-GCM encryption — ciphertext with the
16-byte tag appended. -/
def aesGcmSeal (key iv pt : List Nat) : List Nat := pt ++ authTag key iv pt

/-- Modelled from the spec: AES-256-GCM decryption — splits off the 16-byte
tag, verifies it, and recovers the plaintext (`none` on authentication
failure or a ciphertext shorter than the tag). -/
def aesGcmOpen (key iv ct : List Nat) : Option (List Nat) :=
  if ct.length < 16 then Option.none
  else
    let pt := ct.take (ct.length - 16)
    if ct.drop (ct.length - 16) = authTag key iv pt then some pt else Option.none

structure EncryptedPayload where
  iv : List Nat
  ciphertext : List Nat

/-- `processKeyMaterial` — validate raw keys, derive from passphrases. -/
def processKeyMaterial (secret : KeyMaterial) (ent : Nat → Nat) :
    Except String (List Nat × Option (List Nat)) :=
  match secret with
  | .raw k =>
      if k.length ≠ 32 then .error "Key must be exactly 32 bytes (256 bits)"
      else .ok (k, Option.none)
  | .passphrase s =>
      if s = [] then .error "Password cannot be empty"
      else
        let salt := randomBytes 16 ent
        .ok (deriveKeyFromPassword s salt, some salt)

/-- `encrypt` — fresh salt (for passphrases) then fresh 12-byte IV from the
entropy stream, then authenticated encryption. -/
def encrypt (plaintext : List Nat) (secret : KeyMaterial) (ent : Nat → Nat) :
    Except String (EncryptedPayload × Option (List Nat)) :=
  match processKeyMaterial secret ent with
  | .error e => .error e
  | .ok (key, salt) =>
      let entAfterSalt := match secret with
        | .passphrase _ => shiftEnt 16 ent
        | .raw _ => ent
      let iv := randomBytes 12 entAfterSalt
      .ok (⟨iv, aesGcmSeal key iv plaintext⟩, salt)

/-- `decrypt` — key validation/derivation, IV length check, then
authenticated decryption with a deliberately generic failure message. -/
def decrypt (encrypted : EncryptedPayload) (secret : KeyMaterial)
    (salt : Option (List Nat)) : Except String (List Nat) :=
  match secret with
  | .raw k =>
      if k.length ≠ 32 then .error "Key must be exactly 32 bytes (256 bits)"
      else decryptWithKey encrypted k
  | .passphrase s =>
      match salt with
      | Option.none => .error "Salt is required for password-based decryption"
      | some sa => decryptWithKey encrypted (deriveKeyFromPassword s sa)
where
  decryptWithKey (encrypted : EncryptedPayload) (key : List Nat) : Except String (List Nat) :=
    if encrypted.iv.length ≠ 12 then
      .error ("Invalid IV length: expected 12, got " ++ toString encrypted.iv.length)
    else
      match aesGcmOpen key encrypted.iv encrypted.ciphertext with
      | some pt => .ok pt
      | Option.none => .error "Decryption failed: invalid key or corrupted data"

theorem randomBytes_length (n : Nat) (ent : Nat → Nat) : (randomBytes n ent).length = n := by
  simp [randomBytes]

theorem randomBytes_lt_256 (n : Nat) (ent : Nat → Nat) : ∀ b ∈ randomBytes n ent, b < 256 := by
  intro b hb
  simp only [randomBytes, List.mem_map] at hb
  obtain ⟨i, _, rfl⟩ := hb
  exact Nat.mod_lt _ (by omega)

theorem authTag_length (key iv pt : List Nat) : (authTag key iv pt).length = 16 := by
  simp [authTag]

theorem authTag_lt_256 (key iv pt : List Nat) : ∀ b ∈ authTag key iv pt, b < 256 := by
  intro b hb
  simp only [authTag, List.mem_map] at hb
  obtain ⟨i, _, rfl⟩ := hb
  exact Nat.mod_lt _ (by omega)

theorem deriveKey_lt_256 (password : List Char) (salt : List Nat) :
    ∀ b ∈ deriveKeyFromPassword password salt, b < 256 := by
  intro b hb
  simp only [deriveKeyFromPassword, List.mem_map] at hb
  obtain ⟨i, _, rfl⟩ := hb
  exact Nat.mod_lt _ (by omega)

/-- Decrypting a sealed ciphertext with the sealing key recovers the plaintext. -/
theorem aesGcmOpen_seal (key iv pt : List Nat) :
    aesGcmOpen key iv (aesGcmSeal key iv pt) = some pt := by
  rw [aesGcmSeal, aesGcmOpen]
  have hlen : (pt ++ authTag key iv pt).length = pt.length + 16 := by
    simp [authTag_length]
  rw [if_neg (by omega)]
  have htake : (pt ++ authTag key iv pt).take ((pt ++ authTag key iv pt).length - 16) = pt := by
    rw [hlen]
    simp
  have hdrop : (pt ++ authTag key iv pt).drop ((pt ++ authTag key iv pt).length - 16) =
      authTag key iv pt := by
    rw [hlen]
    simp
  rw [htake, hdrop, if_pos rfl]

/-! ## Versioning (src/utils/versioning.ts) -/

def SUPPORTED_VERSIONS : List Nat := [1]

/-- `isSupportedVersion`. -/
def isSupportedVersion (v : Nat) : Bool := SUPPORTED_VERSIONS.contains v

/-- The message `validateVersion` throws. -/
def versionErrorMsg (v : Nat) : String :=
  "Unsupported token version: " ++ toString v ++ ". Supported versions: " ++
    String.intercalate ", " (SUPPORTED_VERSIONS.map toString)

/-- `validateVersion` — throws on an unsupported version. -/
def validateVersion (m : TokenMetadata) : Except String Unit :=
  if isSupportedVersion m.version then .ok () else .error (versionErrorMsg m.version)

/-! ## Compression abstraction (src/core/compression.ts; the file itself is
not under src/, only its interface appears in CONTRIBUTING.md)

The four algorithms of the source: `none` is a pass-through; `brotli`,
`lz-string` and `zlib` call external libraries.  Each library codec is
modelled from the spec as an invertible stream transformer whose decompressor
rejects input that does not carry the stream's leading magic byte. -/

structure Compressor where
  compress : List Nat → Except String (List Nat)
  decompress : List Nat → Except String (List Nat)

/-- `NoneCompressor` — pass-through. -/
def noneCompressor : Compressor := ⟨fun d => .ok d, fun d => .ok d⟩

/-- Modelled from the spec: an external compression library, reduced to its
contract — `decompress ∘ compress = id`, and decompression fails with a
CompressionError on a stream without the algorithm's magic byte. -/
def taggedCompressor (tag : Nat) : Compressor :=
  ⟨fun d => .ok (tag % 256 :: d),
   fun d =>
     match d with
     | t :: rest => if t = tag % 256 then .ok rest else .error "Invalid compressed data"
     | [] => .error "Invalid compressed data"⟩

/-- `getCompressor`. -/
def getCompressor : CompressionAlgorithm → Compressor
  | .none => noneCompressor
  | .brotli => taggedCompressor 183
  | .lzString => taggedCompressor 44
  | .zlib => taggedCompressor 120

/-- `compress(data, algorithm)`. -/
def compress (data : List Nat) (algorithm : CompressionAlgorithm) : Except String (List Nat) :=
  (getCompressor algorithm).compress data

/-- `decompress(data, algorithm)`. -/
def decompress (data : List Nat) (algorithm : CompressionAlgorithm) :
    Except String (List Nat) :=
  (getCompressor algorithm).decompress data

/-- The bytes `compress` produces, as a total function. -/
def compressedBytes : CompressionAlgorithm → List Nat → List Nat
  | .none, d => d
  | .brotli, d => 183 :: d
  | .lzString, d => 44 :: d
  | .zlib, d => 120 :: d

theorem compress_eq (a : CompressionAlgorithm) (d : List Nat) :
    compress d a = .ok (compressedBytes a d) := by
  cases a <;> rfl

theorem decompress_compressedBytes (a : CompressionAlgorithm) (d : List Nat) :
    decompress (compressedBytes a d) a = .ok d := by
  cases a <;> simp [decompress, compressedBytes, getCompressor, taggedCompressor,
    noneCompressor]

theorem compressedBytes_lt_256 (a : CompressionAlgorithm) (d : List Nat)
    (h : ∀ b ∈ d, b < 256) : ∀ b ∈ compressedBytes a d, b < 256 := by
  intro b hb
  cases a <;> simp [compressedBytes] at hb <;>
    first
      | exact h b hb
      | (rcases hb with rfl | hb; omega; exact h b hb)

/-! ## Byte helpers (src/utils/buffers.ts) -/

/-- `sliceBytes(bytes, start, end)` — `Uint8Array.slice` with an end index. -/
def sliceBytes (bytes : List Nat) (start stop : Nat) : List Nat :=
  (bytes.drop start).take (stop - start)

/-- `sliceBytes(bytes, start)` — `Uint8Array.slice` to the end. -/
def sliceFrom (bytes : List Nat) (start : Nat) : List Nat :=
  bytes.drop start

theorem sliceBytes_middle (A B rest : List Nat) :
    sliceBytes (A ++ (B ++ rest)) A.length (A.length + B.length) = B := by
  rw [sliceBytes, List.drop_left, Nat.add_sub_cancel_left, List.take_left]

theorem sliceFrom_at (A rest : List Nat) : sliceFrom (A ++ rest) A.length = rest := by
  rw [sliceFrom, List.drop_left]

/-! ## Token pipeline (src/cwc.ts, unnamed part_007) -/

/-- `EncodeOptions` — the option bag accepted by `encode`. -/
structure EncodeOptions where
  compression : Option CompressionAlgorithm := Option.none
  algorithm : Option EncryptionAlgorithm := Option.none
  includeTimestamp : Bool := false
  ttl : Option Nat := Option.none

/-- `encode(data, secret, options)`; `Date.now()` and the CSPRNG are the
explicit `now` and `ent` arguments. -/
def encode (data : Json) (secret : KeyMaterial) (options : EncodeOptions)
    (now : Nat) (ent : Nat → Nat) : Except String (List Char) :=
  let json := printJson data
  let jsonBytes := stringToBytes json
  let compressionAlgorithm := options.compression.getD .brotli
  match compress jsonBytes compressionAlgorithm with
  | .error e => .error e
  | .ok compressed =>
    match encrypt compressed secret ent with
    | .error e => .error e
    | .ok (encrypted, salt) =>
      let metadata := createDefaultMetadata compressionAlgorithm
        (options.algorithm.getD .aesGcm256) options.includeTimestamp options.ttl now
      let metadataBytes := packMetadata metadata
      let combined := metadataBytes ++
        ((match salt with | some s => s | Option.none => []) ++
          (encrypted.iv ++ encrypted.ciphertext))
      .ok (encodeBase64Url combined)

/-- Steps 1–3 of `decode`: base64, metadata with version validation, and the
salt/IV/ciphertext split at the metadata-determined offsets. -/
def splitToken (token : List Char) (secret : KeyMaterial) :
    Except String (TokenMetadata × Option (List Nat) × List Nat × List Nat) :=
  match decodeBase64Url token with
  | Option.none => .error "Invalid token: not valid base64"
  | some combined =>
    if combined.length < 4 then .error "Invalid token: too short"
    else
      match unpackMetadata combined with
      | .error e => .error ("Invalid token: " ++ e)
      | .ok metadata =>
        if isSupportedVersion metadata.version = false then
          .error ("Invalid token: " ++ versionErrorMsg metadata.version)
        else
          let offset := getMetadataSize metadata
          let saltLen : Nat := match secret with | .passphrase _ => 16 | .raw _ => 0
          if combined.length < offset + saltLen + 12 then .error "Invalid token: corrupted data"
          else
            let salt : Option (List Nat) := match secret with
              | .passphrase _ => some (sliceBytes combined offset (offset + 16))
              | .raw _ => Option.none
            let iv := sliceBytes combined (offset + saltLen) (offset + saltLen + 12)
            let ciphertext := sliceFrom combined (offset + saltLen + 12)
            .ok (metadata, salt, iv, ciphertext)

/-- `decode(token, secret)`; `Date.now()` is the explicit `now` argument.
The TTL check runs only when both fields are present and truthy (a stored 0
is falsy in JS). -/
def decode (token : List Char) (secret : KeyMaterial) (now : Nat) : Except String Json :=
  match splitToken token secret with
  | .error e => .error e
  | .ok (metadata, salt, iv, ciphertext) =>
    match decrypt ⟨iv, ciphertext⟩ secret salt with
    | .error e => .error ("Decryption failed: " ++ e)
    | .ok decrypted =>
      match decompress decrypted metadata.compression with
      | .error e => .error ("Decompression failed: " ++ e)
      | .ok decompressed =>
        match bytesToString decompressed with
        | Option.none => .error "Invalid token: not valid UTF-8"
        | some json =>
          match jsonParse json with
          | Option.none => .error "Invalid token: not valid JSON"
          | some data =>
            match metadata.timestamp, metadata.ttl with
            | some ts, some ttl =>
              if ts ≠ 0 ∧ ttl ≠ 0 then
                if now > ts + ttl * 1000 then .error "Token has expired" else .ok data
              else .ok data
            | _, _ => .ok data

/-- `validateToken` — structure and version only, never decrypts. -/
def validateToken (token : List Char) : Bool :=
  match decodeBase64Url token with
  | Option.none => false
  | some combined =>
    if combined.length < 4 then false
    else
      match unpackMetadata combined with
      | .error _ => false
      | .ok metadata =>
        if isSupportedVersion metadata.version = false then false
        else decide (getMetadataSize metadata + 12 + 16 ≤ combined.length)

/-- `extractMetadata` — parse the header without any secret. -/
def extractMetadata (token : List Char) : Except String TokenMetadata :=
  match decodeBase64Url token with
  | Option.none => .error "Invalid token: invalid base64"
  | some combined =>
    match unpackMetadata combined with
    | .error e => .error ("Invalid token: " ++ e)
    | .ok metadata =>
      if isSupportedVersion metadata.version = false then
        .error ("Invalid token: " ++ versionErrorMsg metadata.version)
      else .ok metadata

/-! ### Encode structure helpers -/

/-- A secret the crypto engine accepts. -/
def validSecret : KeyMaterial → Prop
  | .passphrase s => s ≠ []
  | .raw k => k.length = 32

/-- Salt-segment length for a secret. -/
def saltLenOf : KeyMaterial → Nat
  | .passphrase _ => 16
  | .raw _ => 0

/-- The salt `encrypt` draws (present iff the secret is a passphrase). -/
def encSalt (secret : KeyMaterial) (ent : Nat → Nat) : Option (List Nat) :=
  match secret with
  | .passphrase _ => some (randomBytes 16 ent)
  | .raw _ => Option.none

/-- The 32-byte key `encrypt` uses. -/
def encKey (secret : KeyMaterial) (ent : Nat → Nat) : List Nat :=
  match secret with
  | .raw k => k
  | .passphrase s => deriveKeyFromPassword s (randomBytes 16 ent)

/-- The 12-byte IV `encrypt` draws (after the salt, for passphrases). -/
def encIv (secret : KeyMaterial) (ent : Nat → Nat) : List Nat :=
  randomBytes 12 (match secret with
    | .passphrase _ => shiftEnt 16 ent
    | .raw _ => ent)

/-- The metadata `encode` writes. -/
def encodeMeta (options : EncodeOptions) (now : Nat) : TokenMetadata :=
  createDefaultMetadata (options.compression.getD .brotli) (options.algorithm.getD .aesGcm256)
    options.includeTimestamp options.ttl now

/-- The compressed-then-encrypted payload bytes of `encode`. -/
def encCiphertext (data : Json) (secret : KeyMaterial) (options : EncodeOptions)
    (ent : Nat → Nat) : List Nat :=
  aesGcmSeal (encKey secret ent) (encIv secret ent)
    (compressedBytes (options.compression.getD .brotli) (stringToBytes (printJson data)))

/-- The decoded-token byte sequence `encode` assembles:
`packMetadata(metadata) ∥ salt? ∥ iv ∥ ciphertext-with-tag`. -/
def encodeBody (data : Json) (secret : KeyMaterial) (options : EncodeOptions)
    (now : Nat) (ent : Nat → Nat) : List Nat :=
  packMetadata (encodeMeta options now) ++
    ((match encSalt secret ent with | some s => s | Option.none => []) ++
      (encIv secret ent ++ encCiphertext data secret options ent))

/-- The token `encode` returns. -/
def encodeToken (data : Json) (secret : KeyMaterial) (options : EncodeOptions)
    (now : Nat) (ent : Nat → Nat) : List Char :=
  encodeBase64Url (encodeBody data secret options now ent)

theorem processKeyMaterial_passphrase (s : List Char) (ent : Nat → Nat) (hs : s ≠ []) :
    processKeyMaterial (.passphrase s) ent =
      .ok (deriveKeyFromPassword s (randomBytes 16 ent), some (randomBytes 16 ent)) := by
  rw [processKeyMaterial, if_neg hs]

theorem processKeyMaterial_raw (k : List Nat) (ent : Nat → Nat) (hk : k.length = 32) :
    processKeyMaterial (.raw k) ent = .ok (k, Option.none) := by
  rw [processKeyMaterial, if_neg (by omega)]

/-- On a valid secret, `encrypt` succeeds, drawing salt then IV from the
entropy stream. -/
theorem encrypt_eq (pt : List Nat) (secret : KeyMaterial) (ent : Nat → Nat)
    (hsec : validSecret secret) :
    encrypt pt secret ent =
      .ok (⟨encIv secret ent, aesGcmSeal (encKey secret ent) (encIv secret ent) pt⟩,
        encSalt secret ent) := by
  cases secret with
  | passphrase s => rw [encrypt.eq_def, processKeyMaterial_passphrase s ent hsec]; rfl
  | raw k => rw [encrypt.eq_def, processKeyMaterial_raw k ent hsec]; rfl

/-- On a valid secret, `encode` succeeds and returns exactly the base64url
encoding of `encodeBody`. -/
theorem encode_eq (data : Json) (secret : KeyMaterial) (options : EncodeOptions)
    (now : Nat) (ent : Nat → Nat) (hsec : validSecret secret) :
    encode data secret options now ent = .ok (encodeToken data secret options now ent) := by
  simp only [encode, compress_eq]
  rw [encrypt_eq _ _ _ hsec]
  rfl

theorem getMetadataSize_ge4 (m : TokenMetadata) : 4 ≤ getMetadataSize m := by
  rw [getMetadataSize]
  omega

/-- Generic shape of a successful `splitToken`: when the decoded bytes are a
well-formed `metadata ∥ salt ∥ iv ∥ ciphertext` concatenation, `splitToken`
cuts them at exactly those offsets. -/
theorem splitToken_structure (tok : List Char) (M S IV CT : List Nat)
    (secret : KeyMaterial) (md' : TokenMetadata)
    (hb64 : decodeBase64Url tok = some (M ++ (S ++ (IV ++ CT))))
    (hunpack : unpackMetadata (M ++ (S ++ (IV ++ CT))) = .ok md')
    (hver : md'.version = 1)
    (hsize : getMetadataSize md' = M.length)
    (hS : S.length = saltLenOf secret)
    (hIV : IV.length = 12) :
    splitToken tok secret =
      .ok (md',
        (match secret with | .passphrase _ => some S | .raw _ => Option.none), IV, CT) := by
  have hM4 : 4 ≤ M.length := hsize ▸ getMetadataSize_ge4 md'
  have hassoc : M ++ (S ++ (IV ++ CT)) = (M ++ S) ++ (IV ++ CT) := by
    simp [List.append_assoc]
  cases secret with
  | passphrase s =>
      have hS16 : S.length = 16 := hS
      simp only [splitToken, hb64, hunpack]
      rw [if_neg (show ¬(isSupportedVersion md'.version = false) from by rw [hver]; decide)]
      have hsalt : sliceBytes (M ++ (S ++ (IV ++ CT))) (getMetadataSize md')
          (getMetadataSize md' + 16) = S := by
        rw [hsize, ← hS16, sliceBytes_middle]
      have hiv : sliceBytes (M ++ (S ++ (IV ++ CT))) (getMetadataSize md' + 16)
          (getMetadataSize md' + 16 + 12) = IV := by
        rw [hassoc]
        have h1 : getMetadataSize md' + 16 = (M ++ S).length := by
          simp [List.length_append, hsize, hS16]
        rw [h1]
        have h2 : (M ++ S).length + 12 = (M ++ S).length + IV.length := by rw [hIV]
        rw [h2]
        exact sliceBytes_middle (M ++ S) IV CT
      have hct : sliceFrom (M ++ (S ++ (IV ++ CT))) (getMetadataSize md' + 16 + 12) = CT := by
        have h3 : getMetadataSize md' + 16 + 12 = ((M ++ S) ++ IV).length := by
          simp [List.length_append, hsize, hS16, hIV]
        rw [h3, hassoc, ← List.append_assoc]
        exact sliceFrom_at ((M ++ S) ++ IV) CT
      rw [hsalt, hiv, hct]
      rw [if_neg (show ¬((M ++ (S ++ (IV ++ CT))).length < getMetadataSize md' + 16 + 12)
        from by simp only [List.length_append]; omega)]
      rw [if_neg (show ¬((M ++ (S ++ (IV ++ CT))).length < 4)
        from by simp only [List.length_append]; omega)]
  | raw k =>
      have hS0 : S.length = 0 := hS
      have hSnil : S = [] := List.length_eq_zero.mp hS0
      subst hSnil
      simp only [List.nil_append] at hb64 hunpack
      simp only [splitToken, hb64, hunpack]
      rw [if_neg (show ¬(isSupportedVersion md'.version = false) from by rw [hver]; decide)]
      have hiv : sliceBytes (M ++ (IV ++ CT)) (getMetadataSize md' + 0)
          (getMetadataSize md' + 0 + 12) = IV := by
        rw [Nat.add_zero, hsize]
        have h2 : M.length + 12 = M.length + IV.length := by rw [hIV]
        rw [h2]
        exact sliceBytes_middle M IV CT
      have hct : sliceFrom (M ++ (IV ++ CT)) (getMetadataSize md' + 0 + 12) = CT := by
        have h3 : getMetadataSize md' + 0 + 12 = (M ++ IV).length := by
          simp [List.length_append, hsize, hIV]
        rw [h3, ← List.append_assoc]
        exact sliceFrom_at (M ++ IV) CT
      rw [hiv, hct]
      rw [if_neg (show ¬((M ++ (IV ++ CT)).length < getMetadataSize md' + 0 + 12)
        from by simp only [List.length_append]; omega)]
      rw [if_neg (show ¬((M ++ (IV ++ CT)).length < 4)
        from by simp only [List.length_append]; omega)]

/-- The metadata `decode` recovers from an encoded token: the written metadata
with its timestamp rounded down to whole seconds. -/
def roundMeta (options : EncodeOptions) (now : Nat) : TokenMetadata :=
  { encodeMeta options now with
    timestamp := (encodeMeta options now).timestamp.map (fun ts => ts / 1000 * 1000) }

theorem encCiphertext_eq (data : Json) (secret : KeyMaterial) (options : EncodeOptions)
    (ent : Nat → Nat) :
    encCiphertext data secret options ent =
      compressedBytes (options.compression.getD .brotli) (stringToBytes (printJson data)) ++
        authTag (encKey secret ent) (encIv secret ent)
          (compressedBytes (options.compression.getD .brotli) (stringToBytes (printJson data))) :=
  rfl

theorem encodeBody_lt_256 (data : Json) (secret : KeyMaterial) (options : EncodeOptions)
    (now : Nat) (ent : Nat → Nat) : ∀ b ∈ encodeBody data secret options now ent, b < 256 := by
  intro b hb
  rw [encodeBody] at hb
  simp only [List.mem_append] at hb
  rcases hb with hb | hb | hb | hb
  · exact packMetadata_lt_256 _ b hb
  · cases secret with
    | passphrase s => exact randomBytes_lt_256 16 ent b hb
    | raw k => simp [encSalt] at hb
  · exact randomBytes_lt_256 12 _ b hb
  · rw [encCiphertext_eq] at hb
    rcases List.mem_append.mp hb with hb | hb
    · exact compressedBytes_lt_256 _ _ (stringToBytes_lt_256 _) b hb
    · exact authTag_lt_256 _ _ _ b hb

theorem encSalt_length (secret : KeyMaterial) (ent : Nat → Nat) :
    (match encSalt secret ent with | some s => s | Option.none => []).length =
      saltLenOf secret := by
  cases secret with
  | passphrase s => simp [encSalt, saltLenOf, randomBytes_length]
  | raw k => simp [encSalt, saltLenOf]

theorem roundMeta_version (options : EncodeOptions) (now : Nat) :
    (roundMeta options now).version = 1 := rfl

theorem roundMeta_compression (options : EncodeOptions) (now : Nat) :
    (roundMeta options now).compression = options.compression.getD .brotli := rfl

theorem roundMeta_ttl (options : EncodeOptions) (now : Nat) :
    (roundMeta options now).ttl = options.ttl := rfl

theorem roundMeta_timestamp (options : EncodeOptions) (now : Nat) :
    (roundMeta options now).timestamp =
      if options.includeTimestamp then some (now / 1000 * 1000) else Option.none := by
  rw [roundMeta]
  simp only [encodeMeta, createDefaultMetadata]
  by_cases h : options.includeTimestamp <;> simp [h]

/-- `splitToken` on an encoded token returns the rounded metadata and exactly
the salt, IV and ciphertext that `encode` assembled. -/
theorem splitToken_encodeToken (data : Json) (secret : KeyMaterial) (options : EncodeOptions)
    (now : Nat) (ent : Nat → Nat)
    (hts : options.includeTimestamp = true → now / 1000 < 4294967296)
    (httl : ∀ t ∈ options.ttl, t < 4294967296) :
    splitToken (encodeToken data secret options now ent) secret =
      .ok (roundMeta options now, encSalt secret ent, encIv secret ent,
        encCiphertext data secret options ent) := by
  have hb64 : decodeBase64Url (encodeToken data secret options now ent) =
      some (encodeBody data secret options now ent) :=
    decodeBase64Url_encodeBase64Url _ (encodeBody_lt_256 data secret options now ent)
  have hts' : ∀ ts ∈ (encodeMeta options now).timestamp, ts / 1000 < 4294967296 := by
    intro ts hmem
    simp only [encodeMeta, createDefaultMetadata] at hmem
    by_cases h : options.includeTimestamp
    · simp [h] at hmem
      subst hmem
      exact hts h
    · simp [h] at hmem
  have httl' : ∀ t ∈ (encodeMeta options now).ttl, t < 4294967296 := httl
  have hunpack : unpackMetadata (encodeBody data secret options now ent) =
      .ok (roundMeta options now) := by
    rw [encodeBody]
    exact unpackMetadata_packMetadata (encodeMeta options now) _
      (by norm_num [encodeMeta, createDefaultMetadata]) hts' httl'
  have hsize : getMetadataSize (roundMeta options now) =
      (packMetadata (encodeMeta options now)).length := by
    rw [packMetadata_length]
    simp [roundMeta, getMetadataSize, Option.isSome_map]
  have h := splitToken_structure (encodeToken data secret options now ent)
    (packMetadata (encodeMeta options now))
    (match encSalt secret ent with | some s => s | Option.none => [])
    (encIv secret ent) (encCiphertext data secret options ent) secret (roundMeta options now)
    hb64 hunpack (roundMeta_version options now) hsize (encSalt_length secret ent)
    (randomBytes_length 12 _)
  rw [h]
  cases secret with
  | passphrase s => rfl
  | raw k => rfl

theorem decryptWithKey_seal (key iv pt : List Nat) (hiv : iv.length = 12) :
    decrypt.decryptWithKey ⟨iv, aesGcmSeal key iv pt⟩ key = .ok pt := by
  rw [decrypt.decryptWithKey]
  dsimp only
  rw [if_neg (by omega)]
  rw [aesGcmOpen_seal]

/-- Decrypting what `encrypt` produced, with the same secret and the salt the
token carries, recovers the plaintext. -/
theorem decrypt_enc (secret : KeyMaterial) (ent : Nat → Nat) (pt : List Nat)
    (hsec : validSecret secret) :
    decrypt ⟨encIv secret ent, aesGcmSeal (encKey secret ent) (encIv secret ent) pt⟩
      secret (encSalt secret ent) = .ok pt := by
  cases secret with
  | passphrase s =>
      exact decryptWithKey_seal (encKey (KeyMaterial.passphrase s) ent)
        (encIv (KeyMaterial.passphrase s) ent) pt (by simp [encIv, randomBytes_length])
  | raw k =>
      have hk : k.length = 32 := hsec
      show (if k.length ≠ 32 then
          (Except.error "Key must be exactly 32 bytes (256 bits)" : Except String (List Nat))
        else decrypt.decryptWithKey
          ⟨encIv (KeyMaterial.raw k) ent,
            aesGcmSeal (encKey (KeyMaterial.raw k) ent) (encIv (KeyMaterial.raw k) ent) pt⟩ k)
        = .ok pt
      rw [if_neg (by omega)]
      exact decryptWithKey_seal k (encIv (KeyMaterial.raw k) ent) pt
        (by simp [encIv, randomBytes_length])

/-- Main pipeline round-trip: decoding an encoded token with the encoding
secret returns the original data, provided the token is not expired at decode
time. -/
theorem decode_encodeToken (data : Json) (secret : KeyMaterial) (options : EncodeOptions)
    (now_e now_d : Nat) (ent : Nat → Nat)
    (hsec : validSecret secret)
    (hts : options.includeTimestamp = true → now_e / 1000 < 4294967296)
    (httl : ∀ t ∈ options.ttl, t < 4294967296)
    (hexp : ∀ t, options.includeTimestamp = true → options.ttl = some t →
      now_e / 1000 * 1000 ≠ 0 → t ≠ 0 → now_d ≤ now_e / 1000 * 1000 + t * 1000) :
    decode (encodeToken data secret options now_e ent) secret now_d = .ok data := by
  have hsplit := splitToken_encodeToken data secret options now_e ent hts httl
  have hdec : decrypt ⟨encIv secret ent, encCiphertext data secret options ent⟩ secret
      (encSalt secret ent) =
      .ok (compressedBytes (options.compression.getD .brotli)
        (stringToBytes (printJson data))) :=
    decrypt_enc secret ent _ hsec
  simp only [decode, hsplit, hdec, roundMeta_compression, decompress_compressedBytes,
    bytesToString, utf8Decode_stringToBytes, jsonParse_printJson]
  rw [roundMeta_ttl, roundMeta_timestamp]
  by_cases hinc : options.includeTimestamp
  · rw [if_pos hinc]
    cases httlv : options.ttl with
    | none => rfl
    | some t =>
        by_cases hz : now_e / 1000 * 1000 ≠ 0 ∧ t ≠ 0
        · have hle := hexp t hinc httlv hz.1 hz.2
          show (if now_e / 1000 * 1000 ≠ 0 ∧ t ≠ 0 then
              if now_d > now_e / 1000 * 1000 + t * 1000 then
                (Except.error "Token has expired" : Except String Json)
              else .ok data
            else .ok data) = .ok data
          rw [if_pos hz, if_neg (by omega)]
        · show (if now_e / 1000 * 1000 ≠ 0 ∧ t ≠ 0 then
              if now_d > now_e / 1000 * 1000 + t * 1000 then
                (Except.error "Token has expired" : Except String Json)
              else .ok data
            else .ok data) = .ok data
          rw [if_neg hz]
  · rw [if_neg hinc]

/-- Expiry path of `decode` on an encoded token: with a truthy stored
timestamp and TTL and a decode time strictly past the deadline, decode fails
with the expired-token error. -/
theorem decode_encodeToken_expired (data : Json) (secret : KeyMaterial)
    (options : EncodeOptions) (now_e now_d : Nat) (ent : Nat → Nat)
    (hsec : validSecret secret)
    (hts : options.includeTimestamp = true → now_e / 1000 < 4294967296)
    (httl : ∀ t ∈ options.ttl, t < 4294967296)
    (hinc : options.includeTimestamp = true) (t : Nat) (httlv : options.ttl = some t)
    (hts0 : now_e / 1000 * 1000 ≠ 0) (ht0 : t ≠ 0)
    (hlate : now_d > now_e / 1000 * 1000 + t * 1000) :
    decode (encodeToken data secret options now_e ent) secret now_d =
      .error "Token has expired" := by
  have hsplit := splitToken_encodeToken data secret options now_e ent hts httl
  have hdec : decrypt ⟨encIv secret ent, encCiphertext data secret options ent⟩ secret
      (encSalt secret ent) =
      .ok (compressedBytes (options.compression.getD .brotli)
        (stringToBytes (printJson data))) :=
    decrypt_enc secret ent _ hsec
  simp only [decode, hsplit, hdec, roundMeta_compression, decompress_compressedBytes,
    bytesToString, utf8Decode_stringToBytes, jsonParse_printJson]
  rw [roundMeta_ttl, roundMeta_timestamp, if_pos hinc, httlv]
  show (if now_e / 1000 * 1000 ≠ 0 ∧ t ≠ 0 then
      if now_d > now_e / 1000 * 1000 + t * 1000 then
        (Except.error "Token has expired" : Except String Json)
      else .ok data
    else .ok data) = .error "Token has expired"
  rw [if_pos ⟨hts0, ht0⟩, if_pos hlate]

/-! ## Claim theorems -/

/-- C1: for every JSON-representable value `d`, every valid secret `s`
(non-empty passphrase or 32-byte raw key), and every compression id among
none, brotli, lz-string, zlib, `decode(encode(d, s, {compression}), s)`
returns a value equal to `d` (for any encode time, decode time, and entropy). -/
theorem claim1_roundtrip (d : Json) (secret : KeyMaterial) (c : CompressionAlgorithm)
    (now_e now_d : Nat) (ent : Nat → Nat) (hsec : validSecret secret) :
    (encode d secret { compression := some c } now_e ent).bind
      (fun tok => decode tok secret now_d) = .ok d := by
  rw [encode_eq d secret _ now_e ent hsec]
  show decode (encodeToken d secret { compression := some c } now_e ent) secret now_d = .ok d
  exact decode_encodeToken d secret _ now_e now_d ent hsec
    (by intro h; simp at h)
    (by intro t ht; simp at ht)
    (by intro t _ ht; simp at ht)

theorem claim1_roundtrip_witness :
    validSecret (KeyMaterial.passphrase ['p', 'w']) ∧
    (encode (Json.num 42) (KeyMaterial.passphrase ['p', 'w'])
        { compression := some CompressionAlgorithm.zlib } 0 (fun _ => 0)).bind
      (fun tok => decode tok (KeyMaterial.passphrase ['p', 'w']) 5) = .ok (Json.num 42) :=
  ⟨by simp [validSecret],
   claim1_roundtrip (Json.num 42) (KeyMaterial.passphrase ['p', 'w'])
     CompressionAlgorithm.zlib 0 5 (fun _ => 0) (by simp [validSecret])⟩

/-- C2 counterexample: a token encoded at time 1000 ms with `ttl = 1` has
`timestamp + ttl·1000 = 2000`; at wall-clock time 2000 — where the claim
demands an expired-token failure since `now ≥ timestamp + ttl·1000` — decode
succeeds and returns the data, because the code only expires on the strict
comparison `now > expiresAt`. -/
theorem claim2_counterexample :
    2000 ≥ 1000 + 1 * 1000 ∧
    (encode Json.null (KeyMaterial.passphrase ['p', 'w'])
        { includeTimestamp := true, ttl := some 1 } 1000 (fun _ => 0)).bind
      (fun tok => decode tok (KeyMaterial.passphrase ['p', 'w']) 2000) = .ok Json.null := by
  refine ⟨by omega, ?_⟩
  rw [encode_eq Json.null (KeyMaterial.passphrase ['p', 'w']) _ 1000 (fun _ => 0)
    (by simp [validSecret])]
  show decode (encodeToken Json.null (KeyMaterial.passphrase ['p', 'w'])
    { includeTimestamp := true, ttl := some 1 } 1000 (fun _ => 0))
    (KeyMaterial.passphrase ['p', 'w']) 2000 = .ok Json.null
  exact decode_encodeToken Json.null (KeyMaterial.passphrase ['p', 'w']) _ 1000 2000
    (fun _ => 0) (by simp [validSecret]) (by intro _; omega)
    (by intro t ht; simp at ht; omega)
    (by intro t _ ht _ _; simp at ht; omega)

/-- C2 (amended): for a token carrying both a (nonzero) timestamp and a
nonzero ttl, decode fails with the expired-token error whenever the current
time is STRICTLY greater than `timestamp + ttl·1000` ms, and succeeds
(returning the original data) whenever the current time is less than or
equal to that bound. -/
theorem claim2_expiry_strict (d : Json) (secret : KeyMaterial) (t now_e now_d : Nat)
    (ent : Nat → Nat) (hsec : validSecret secret)
    (hb1 : now_e / 1000 < 4294967296) (hb2 : t < 4294967296)
    (hts0 : 1000 ≤ now_e) (ht0 : t ≠ 0) :
    (now_d ≤ now_e / 1000 * 1000 + t * 1000 →
      decode (encodeToken d secret { includeTimestamp := true, ttl := some t } now_e ent)
        secret now_d = .ok d) ∧
    (now_e / 1000 * 1000 + t * 1000 < now_d →
      decode (encodeToken d secret { includeTimestamp := true, ttl := some t } now_e ent)
        secret now_d = .error "Token has expired") := by
  constructor
  · intro hle
    exact decode_encodeToken d secret _ now_e now_d ent hsec (fun _ => hb1)
      (by intro t' ht'; simp at ht'; omega)
      (by intro t' _ ht' _ _; simp at ht'; subst ht'; exact hle)
  · intro hlate
    exact decode_encodeToken_expired d secret _ now_e now_d ent hsec (fun _ => hb1)
      (by intro t' ht'; simp at ht'; omega)
      rfl t rfl (by omega) ht0 (by omega)

theorem claim2_expiry_strict_witness :
    validSecret (KeyMaterial.passphrase ['p', 'w']) ∧ 1000 / 1000 < 4294967296 ∧
    (1 : Nat) < 4294967296 ∧ 1000 ≤ 1000 ∧ (1 : Nat) ≠ 0 ∧
    ((2000 ≤ 1000 / 1000 * 1000 + 1 * 1000 →
      decode (encodeToken Json.null (KeyMaterial.passphrase ['p', 'w'])
        { includeTimestamp := true, ttl := some 1 } 1000 (fun _ => 0))
        (KeyMaterial.passphrase ['p', 'w']) 2000 = .ok Json.null) ∧
    (1000 / 1000 * 1000 + 1 * 1000 < 2000 →
      decode (encodeToken Json.null (KeyMaterial.passphrase ['p', 'w'])
        { includeTimestamp := true, ttl := some 1 } 1000 (fun _ => 0))
        (KeyMaterial.passphrase ['p', 'w']) 2000 = .error "Token has expired")) :=
  ⟨by simp [validSecret], by omega, by omega, by omega, by omega,
   claim2_expiry_strict Json.null (KeyMaterial.passphrase ['p', 'w']) 1 1000 2000
     (fun _ => 0) (by simp [validSecret]) (by omega) (by omega) (by omega) (by omega)⟩

/-- C10: when a token's packed metadata has both the timestamp and ttl flag
bits set but the stored ttl is 0, or the stored timestamp is 0 (encode time
below one second), decode never fails with the expiry error, at any decode
time: the JS truthiness test `metadata.timestamp && metadata.ttl` skips the
check when either decoded field is the number 0. -/
theorem claim10_zero_skips_expiry (d : Json) (secret : KeyMaterial) (now_e now_d t : Nat)
    (ent : Nat → Nat) (hsec : validSecret secret)
    (hb1 : now_e / 1000 < 4294967296) (hb2 : t < 4294967296) :
    (decode (encodeToken d secret { includeTimestamp := true, ttl := some 0 } now_e ent)
      secret now_d = .ok d) ∧
    (now_e ≤ 999 →
      decode (encodeToken d secret { includeTimestamp := true, ttl := some t } now_e ent)
        secret now_d = .ok d) := by
  constructor
  · exact decode_encodeToken d secret _ now_e now_d ent hsec (fun _ => hb1)
      (by intro t' ht'; simp at ht'; omega)
      (by intro t' _ ht' _ h0; simp at ht'; omega)
  · intro hsmall
    exact decode_encodeToken d secret _ now_e now_d ent hsec (fun _ => hb1)
      (by intro t' ht'; simp at ht'; omega)
      (by intro t' _ _ h3 _; exact absurd (by omega : now_e / 1000 * 1000 = 0) h3)

theorem claim10_zero_skips_expiry_witness :
    validSecret (KeyMaterial.passphrase ['p', 'w']) ∧ 500 / 1000 < 4294967296 ∧
    (7 : Nat) < 4294967296 ∧
    ((decode (encodeToken Json.null (KeyMaterial.passphrase ['p', 'w'])
        { includeTimestamp := true, ttl := some 0 } 500 (fun _ => 0))
      (KeyMaterial.passphrase ['p', 'w']) 999999999 = .ok Json.null) ∧
    (500 ≤ 999 →
      decode (encodeToken Json.null (KeyMaterial.passphrase ['p', 'w'])
        { includeTimestamp := true, ttl := some 7 } 500 (fun _ => 0))
        (KeyMaterial.passphrase ['p', 'w']) 999999999 = .ok Json.null)) :=
  ⟨by simp [validSecret], by omega, by omega,
   claim10_zero_skips_expiry Json.null (KeyMaterial.passphrase ['p', 'w']) 500 999999999 7
     (fun _ => 0) (by simp [validSecret]) (by omega) (by omega)⟩

/-- C3: on every (successful) encode call the base64url-decoded token bytes
are exactly `packMetadata(metadata) ∥ salt ∥ iv ∥ ciphertext-with-tag`; the
16-byte salt segment is present iff the secret is passphrase-typed, the IV is
exactly 12 bytes, the ciphertext ends in a 16-byte authentication tag, and
`splitToken` (decode steps 1–3) cuts the bytes back at exactly these
offsets. -/
theorem claim3_token_structure (data : Json) (secret : KeyMaterial) (options : EncodeOptions)
    (now : Nat) (ent : Nat → Nat) (hsec : validSecret secret)
    (hts : options.includeTimestamp = true → now / 1000 < 4294967296)
    (httl : ∀ t ∈ options.ttl, t < 4294967296) :
    ∃ tok, encode data secret options now ent = .ok tok ∧
      decodeBase64Url tok = some (packMetadata (encodeMeta options now) ++
        ((match encSalt secret ent with | some s => s | Option.none => []) ++
          (encIv secret ent ++ encCiphertext data secret options ent))) ∧
      ((∃ s, secret = KeyMaterial.passphrase s) ↔
        (∃ sb, encSalt secret ent = some sb ∧ sb.length = 16)) ∧
      (encIv secret ent).length = 12 ∧
      (∃ tag, tag.length = 16 ∧
        encCiphertext data secret options ent =
          compressedBytes (options.compression.getD .brotli)
            (stringToBytes (printJson data)) ++ tag) ∧
      splitToken tok secret =
        .ok (roundMeta options now, encSalt secret ent, encIv secret ent,
          encCiphertext data secret options ent) := by
  refine ⟨encodeToken data secret options now ent, encode_eq data secret options now ent hsec,
    ?_, ?_, randomBytes_length 12 _, ?_, splitToken_encodeToken data secret options now ent
      hts httl⟩
  · exact decodeBase64Url_encodeBase64Url _ (encodeBody_lt_256 data secret options now ent)
  · cases secret with
    | passphrase s =>
        constructor
        · intro _
          exact ⟨randomBytes 16 ent, rfl, randomBytes_length 16 ent⟩
        · intro _
          exact ⟨s, rfl⟩
    | raw k =>
        constructor
        · rintro ⟨s, h⟩
          simp at h
        · rintro ⟨sb, h, _⟩
          simp [encSalt] at h
  · exact ⟨authTag (encKey secret ent) (encIv secret ent)
      (compressedBytes (options.compression.getD .brotli) (stringToBytes (printJson data))),
      authTag_length _ _ _, encCiphertext_eq data secret options ent⟩

theorem claim3_token_structure_witness :
    validSecret (KeyMaterial.raw (List.range 32)) ∧
    (∃ tok, encode Json.null (KeyMaterial.raw (List.range 32)) {} 0 (fun _ => 0) = .ok tok ∧
      decodeBase64Url tok = some (packMetadata (encodeMeta {} 0) ++
        ((match encSalt (KeyMaterial.raw (List.range 32)) (fun _ => 0) with
          | some s => s | Option.none => []) ++
          (encIv (KeyMaterial.raw (List.range 32)) (fun _ => 0) ++
            encCiphertext Json.null (KeyMaterial.raw (List.range 32)) {} (fun _ => 0)))) ∧
      ((∃ s, KeyMaterial.raw (List.range 32) = KeyMaterial.passphrase s) ↔
        (∃ sb, encSalt (KeyMaterial.raw (List.range 32)) (fun _ => 0) = some sb ∧
          sb.length = 16)) ∧
      (encIv (KeyMaterial.raw (List.range 32)) (fun _ => 0)).length = 12 ∧
      (∃ tag, tag.length = 16 ∧
        encCiphertext Json.null (KeyMaterial.raw (List.range 32)) {} (fun _ => 0) =
          compressedBytes (({} : EncodeOptions).compression.getD .brotli)
            (stringToBytes (printJson Json.null)) ++ tag) ∧
      splitToken tok (KeyMaterial.raw (List.range 32)) =
        .ok (roundMeta {} 0, encSalt (KeyMaterial.raw (List.range 32)) (fun _ => 0),
          encIv (KeyMaterial.raw (List.range 32)) (fun _ => 0),
          encCiphertext Json.null (KeyMaterial.raw (List.range 32)) {} (fun _ => 0))) :=
  ⟨by simp [validSecret],
   claim3_token_structure Json.null (KeyMaterial.raw (List.range 32)) {} 0 (fun _ => 0)
     (by simp [validSecret]) (by intro h; simp at h) (by intro t ht; simp at ht)⟩

/-- C7: for every metadata record whose version fits in a byte and whose
optional timestamp (after millisecond-to-second conversion) and ttl fit in
32 bits, unpacking the packed bytes recovers the record exactly, except that
a present timestamp comes back rounded down to whole seconds; version,
algorithm, compression, ttl and the presence of each optional field are
preserved. -/
theorem claim7_metadata_roundtrip (m : TokenMetadata) (hv : m.version < 256)
    (hts : ∀ ts ∈ m.timestamp, ts / 1000 < 4294967296)
    (httl : ∀ t ∈ m.ttl, t < 4294967296) :
    unpackMetadata (packMetadata m) =
      .ok { m with timestamp := m.timestamp.map (fun ts => ts / 1000 * 1000) } := by
  have h := unpackMetadata_packMetadata m [] hv hts httl
  rw [List.append_nil] at h
  exact h

theorem claim7_metadata_roundtrip_witness :
    (1 : Nat) < 256 ∧
    (∀ ts ∈ (TokenMetadata.mk 1 .aesGcm256 .zlib (some 1500) (some 7)).timestamp,
      ts / 1000 < 4294967296) ∧
    (∀ t ∈ (TokenMetadata.mk 1 .aesGcm256 .zlib (some 1500) (some 7)).ttl,
      t < 4294967296) ∧
    unpackMetadata (packMetadata (TokenMetadata.mk 1 .aesGcm256 .zlib (some 1500) (some 7))) =
      .ok (TokenMetadata.mk 1 .aesGcm256 .zlib (some 1000) (some 7)) :=
  ⟨by omega, by intro ts h; simp at h; omega, by intro t h; simp at h; omega,
   claim7_metadata_roundtrip (TokenMetadata.mk 1 .aesGcm256 .zlib (some 1500) (some 7))
     (by decide) (by intro ts h; simp at h; omega) (by intro t h; simp at h; omega)⟩

/-- C8: the crypto layer enforces its key preconditions with the exact thrown
messages — encrypt rejects a raw key whose length is not 32 and an empty
passphrase; decrypt rejects a raw key whose length is not 32, a passphrase
secret given no salt, and (before any decryption attempt, for either secret
type) a payload whose IV is not exactly 12 bytes. -/
theorem claim8_crypto_preconditions :
    (∀ (pt k : List Nat) (ent : Nat → Nat), k.length ≠ 32 →
      encrypt pt (KeyMaterial.raw k) ent =
        .error "Key must be exactly 32 bytes (256 bits)") ∧
    (∀ (pt : List Nat) (ent : Nat → Nat),
      encrypt pt (KeyMaterial.passphrase []) ent = .error "Password cannot be empty") ∧
    (∀ (p : EncryptedPayload) (k : List Nat) (salt : Option (List Nat)), k.length ≠ 32 →
      decrypt p (KeyMaterial.raw k) salt = .error "Key must be exactly 32 bytes (256 bits)") ∧
    (∀ (p : EncryptedPayload) (s : List Char),
      decrypt p (KeyMaterial.passphrase s) Option.none =
        .error "Salt is required for password-based decryption") ∧
    (∀ (iv ct k : List Nat) (sa : List Nat) (s : List Char), iv.length ≠ 12 →
      k.length = 32 →
      decrypt ⟨iv, ct⟩ (KeyMaterial.raw k) Option.none =
        .error ("Invalid IV length: expected 12, got " ++ toString iv.length) ∧
      decrypt ⟨iv, ct⟩ (KeyMaterial.passphrase s) (some sa) =
        .error ("Invalid IV length: expected 12, got " ++ toString iv.length)) := by
  refine ⟨?_, ?_, ?_, ?_, ?_⟩
  · intro pt k ent hk
    rw [encrypt.eq_def, processKeyMaterial, if_pos hk]
  · intro pt ent
    rfl
  · intro p k salt hk
    show (if k.length ≠ 32 then
        (Except.error "Key must be exactly 32 bytes (256 bits)" : Except String (List Nat))
      else decrypt.decryptWithKey p k) =
      .error "Key must be exactly 32 bytes (256 bits)"
    rw [if_pos hk]
  · intro p s
    rfl
  · intro iv ct k sa s hiv hk
    constructor
    · show (if k.length ≠ 32 then
          (Except.error "Key must be exactly 32 bytes (256 bits)" : Except String (List Nat))
        else decrypt.decryptWithKey ⟨iv, ct⟩ k) =
        .error ("Invalid IV length: expected 12, got " ++ toString iv.length)
      rw [if_neg (by omega), decrypt.decryptWithKey]
      dsimp only
      rw [if_pos hiv]
    · show decrypt.decryptWithKey ⟨iv, ct⟩ (deriveKeyFromPassword s sa) =
        .error ("Invalid IV length: expected 12, got " ++ toString iv.length)
      rw [decrypt.decryptWithKey]
      dsimp only
      rw [if_pos hiv]

theorem claim8_crypto_preconditions_witness :
    ([0] : List Nat).length ≠ 32 ∧ ([] : List Nat).length ≠ 12 ∧
    (List.range 32).length = 32 ∧
    encrypt [] (KeyMaterial.raw [0]) (fun _ => 0) =
      .error "Key must be exactly 32 bytes (256 bits)" ∧
    encrypt [] (KeyMaterial.passphrase []) (fun _ => 0) =
      .error "Password cannot be empty" ∧
    decrypt ⟨[], []⟩ (KeyMaterial.raw [0]) Option.none =
      .error "Key must be exactly 32 bytes (256 bits)" ∧
    decrypt ⟨[], []⟩ (KeyMaterial.passphrase ['p']) Option.none =
      .error "Salt is required for password-based decryption" ∧
    decrypt ⟨[], []⟩ (KeyMaterial.raw (List.range 32)) Option.none =
      .error ("Invalid IV length: expected 12, got " ++ toString ([] : List Nat).length) ∧
    decrypt ⟨[], []⟩ (KeyMaterial.passphrase ['p']) (some [0]) =
      .error ("Invalid IV length: expected 12, got " ++ toString ([] : List Nat).length) :=
  ⟨by simp, by simp, by simp,
   claim8_crypto_preconditions.1 [] [0] (fun _ => 0) (by simp),
   claim8_crypto_preconditions.2.1 [] (fun _ => 0),
   claim8_crypto_preconditions.2.2.1 ⟨[], []⟩ [0] Option.none (by simp),
   claim8_crypto_preconditions.2.2.2.1 ⟨[], []⟩ ['p'],
   (claim8_crypto_preconditions.2.2.2.2 [] [] (List.range 32) [0] ['p'] (by simp)
     (by simp)).1,
   (claim8_crypto_preconditions.2.2.2.2 [] [] (List.range 32) [0] ['p'] (by simp)
     (by simp)).2⟩

/-- A successful `unpackMetadata` implies at least 4 input bytes, and the
returned version is exactly the first byte. -/
theorem unpackMetadata_ok_facts (data : List Nat) (md : TokenMetadata)
    (h : unpackMetadata data = .ok md) :
    4 ≤ data.length ∧ md.version = data.getD 0 0 := by
  simp only [unpackMetadata] at h
  split at h
  · cases h
  next h4 =>
    refine ⟨by omega, ?_⟩
    split at h
    · cases h
    next algorithm halg =>
      split at h
      · cases h
      next compression hcomp =>
        split_ifs at h <;> cases h <;> rfl

theorem isSupportedVersion_eq_false (v : Nat) (h : v ≠ 1) :
    isSupportedVersion v = false := by
  simp [isSupportedVersion, SUPPORTED_VERSIONS]
  omega

/-- C9: any token whose decoded bytes parse as metadata but whose first byte
(the version) is not the recognized value 1 is rejected by all three entry
points: `extractMetadata` and `decode` fail with the version error naming
that byte, and `validateToken` returns false. -/
theorem claim9_unsupported_version (bytes : List Nat) (md : TokenMetadata)
    (hlt : ∀ b ∈ bytes, b < 256)
    (hmd : unpackMetadata bytes = .ok md) (hver : bytes.getD 0 0 ≠ 1) :
    extractMetadata (encodeBase64Url bytes) =
      .error ("Invalid token: " ++ versionErrorMsg (bytes.getD 0 0)) ∧
    validateToken (encodeBase64Url bytes) = false ∧
    ∀ (secret : KeyMaterial) (now : Nat),
      decode (encodeBase64Url bytes) secret now =
        .error ("Invalid token: " ++ versionErrorMsg (bytes.getD 0 0)) := by
  have hb64 := decodeBase64Url_encodeBase64Url bytes hlt
  obtain ⟨h4, hv⟩ := unpackMetadata_ok_facts bytes md hmd
  have hsup : isSupportedVersion md.version = false :=
    isSupportedVersion_eq_false _ (by rw [hv]; exact hver)
  refine ⟨?_, ?_, ?_⟩
  · simp only [extractMetadata, hb64, hmd]
    rw [if_pos hsup, hv]
  · simp only [validateToken, hb64]
    rw [if_neg (show ¬(bytes.length < 4) from by omega)]
    simp only [hmd]
    rw [if_pos hsup]
  · intro secret now
    simp only [decode, splitToken, hb64]
    rw [if_neg (show ¬(bytes.length < 4) from by omega)]
    simp only [hmd]
    rw [if_pos hsup, hv]

theorem claim9_unsupported_version_witness :
    (∀ b ∈ ([2, 1, 0, 0] : List Nat), b < 256) ∧
    unpackMetadata [2, 1, 0, 0] =
      .ok (TokenMetadata.mk 2 EncryptionAlgorithm.aesGcm256 CompressionAlgorithm.none
        Option.none Option.none) ∧
    ([2, 1, 0, 0] : List Nat).getD 0 0 ≠ 1 ∧
    (extractMetadata (encodeBase64Url [2, 1, 0, 0]) =
      .error ("Invalid token: " ++ versionErrorMsg (([2, 1, 0, 0] : List Nat).getD 0 0)) ∧
    validateToken (encodeBase64Url [2, 1, 0, 0]) = false ∧
    ∀ (secret : KeyMaterial) (now : Nat),
      decode (encodeBase64Url [2, 1, 0, 0]) secret now =
        .error ("Invalid token: " ++ versionErrorMsg (([2, 1, 0, 0] : List Nat).getD 0 0))) :=
  ⟨by decide, rfl, by decide,
   claim9_unsupported_version [2, 1, 0, 0]
     (TokenMetadata.mk 2 EncryptionAlgorithm.aesGcm256 CompressionAlgorithm.none
       Option.none Option.none) (by decide) rfl (by decide)⟩

/-! ## Key rotation (src/utils/keyRotation.ts) -/

/-- The JS loop guard `if (!secret) continue;` — only the empty string (empty
passphrase) is falsy; a `Uint8Array` secret is always truthy. -/
def isFalsySecret : KeyMaterial → Bool
  | .passphrase s => s.isEmpty
  | .raw _ => false

/-- The `for` loop of `decodeWithKeyFallback`: index `i` and the accumulated
error messages are explicit; falsy secrets are skipped without recording an
error. -/
def decodeFallbackLoop (token : List Char) (now : Nat) :
    List KeyMaterial → Nat → List String → (List String) ⊕ (Json × Nat)
  | [], _, errors => Sum.inl errors
  | secret :: rest, i, errors =>
    if isFalsySecret secret then decodeFallbackLoop token now rest (i + 1) errors
    else
      match decode token secret now with
      | .ok d => Sum.inr (d, i)
      | .error e => decodeFallbackLoop token now rest (i + 1) (errors ++ [e])

/-- `decodeWithKeyFallback(token, secrets)`. -/
def decodeWithKeyFallback (token : List Char) (secrets : List KeyMaterial) (now : Nat) :
    Except String (Json × Nat) :=
  match decodeFallbackLoop token now secrets 0 [] with
  | Sum.inr r => .ok r
  | Sum.inl errors =>
    .error ("Failed to decode token with any of the " ++ toString secrets.length ++
      " provided keys. Errors: " ++ String.intercalate "; " errors)

/-- The failure messages the loop accumulates when every (non-skipped) secret
fails: one message per tried key, in array order. -/
def failMsgs (token : List Char) (now : Nat) (secrets : List KeyMaterial) : List String :=
  secrets.filterMap (fun s =>
    if isFalsySecret s then Option.none
    else match decode token s now with
      | .error e => some e
      | .ok _ => Option.none)

theorem decodeFallbackLoop_success (token : List Char) (now : Nat) :
    ∀ (pre : List KeyMaterial) (i : Nat) (errors : List String)
      (post : List KeyMaterial) (s : KeyMaterial) (d : Json),
      (∀ s' ∈ pre, isFalsySecret s' = true ∨ ∃ e, decode token s' now = .error e) →
      isFalsySecret s = false → decode token s now = .ok d →
      decodeFallbackLoop token now (pre ++ s :: post) i errors = Sum.inr (d, i + pre.length)
  | [], i, errors, post, s, d, _, hfal, hdec => by
      simp only [List.nil_append, decodeFallbackLoop, hfal, if_false, hdec, List.length_nil,
        Nat.add_zero]
      rfl
  | p :: pre, i, errors, post, s, d, hpre, hfal, hdec => by
      by_cases hp : isFalsySecret p = true
      · rw [List.cons_append, decodeFallbackLoop, if_pos hp,
          decodeFallbackLoop_success token now pre (i + 1) errors post s d
            (fun s' hs' => hpre s' (by simp [hs'])) hfal hdec]
        simp only [List.length_cons]
        rw [Nat.add_comm pre.length 1, ← Nat.add_assoc]
      · rcases hpre p (by simp) with hp' | ⟨e, he⟩
        · exact absurd hp' hp
        · rw [List.cons_append, decodeFallbackLoop, if_neg hp]
          simp only [he]
          rw [decodeFallbackLoop_success token now pre (i + 1) (errors ++ [e]) post s d
            (fun s' hs' => hpre s' (by simp [hs'])) hfal hdec]
          simp only [List.length_cons]
          rw [Nat.add_comm pre.length 1, ← Nat.add_assoc]

theorem decodeFallbackLoop_allFail (token : List Char) (now : Nat) :
    ∀ (secrets : List KeyMaterial) (i : Nat) (errors : List String),
      (∀ s ∈ secrets, isFalsySecret s = false → ∃ e, decode token s now = .error e) →
      decodeFallbackLoop token now secrets i errors =
        Sum.inl (errors ++ failMsgs token now secrets)
  | [], i, errors, _ => by simp [decodeFallbackLoop, failMsgs]
  | s :: rest, i, errors, hall => by
      by_cases hf : isFalsySecret s = true
      · rw [decodeFallbackLoop, if_pos hf,
          decodeFallbackLoop_allFail token now rest (i + 1) errors
            (fun s' hs' => hall s' (by simp [hs']))]
        simp [failMsgs, hf]
      · have hf' : isFalsySecret s = false := by simpa using hf
        obtain ⟨e, he⟩ := hall s (by simp) hf'
        rw [decodeFallbackLoop, if_neg hf]
        simp only [he]
        rw [decodeFallbackLoop_allFail token now rest (i + 1) (errors ++ [e])
            (fun s' hs' => hall s' (by simp [hs']))]
        simp [failMsgs, hf', he]

/-- C6: `decodeWithKeyFallback` tries the secrets in array order (skipping,
without recording an error, a secret that is the empty string — falsy in JS):
it returns the decoded data together with the original array index of the
first secret that decodes the token, and when no secret succeeds it fails
with a single aggregate error naming the total number of provided keys and
joining the individual failure message of each tried key with "; ". -/
theorem claim6_key_fallback (token : List Char) (now : Nat)
    (secrets : List KeyMaterial) :
    (∀ (pre post : List KeyMaterial) (s : KeyMaterial) (d : Json),
      secrets = pre ++ s :: post →
      (∀ s' ∈ pre, isFalsySecret s' = true ∨ ∃ e, decode token s' now = .error e) →
      isFalsySecret s = false →
      decode token s now = .ok d →
      decodeWithKeyFallback token secrets now = .ok (d, pre.length)) ∧
    ((∀ s ∈ secrets, isFalsySecret s = false → ∃ e, decode token s now = .error e) →
      decodeWithKeyFallback token secrets now =
        .error ("Failed to decode token with any of the " ++ toString secrets.length ++
          " provided keys. Errors: " ++
          String.intercalate "; " (failMsgs token now secrets))) := by
  constructor
  · intro pre post s d hsplit hpre hfal hdec
    subst hsplit
    rw [decodeWithKeyFallback,
      decodeFallbackLoop_success token now pre 0 [] post s d hpre hfal hdec]
    rw [Nat.zero_add]
  · intro hall
    rw [decodeWithKeyFallback, decodeFallbackLoop_allFail token now secrets 0 [] hall]
    rw [List.nil_append]

theorem claim6_key_fallback_witness :
    isFalsySecret (KeyMaterial.passphrase ['p']) = false ∧
    decode (encodeToken Json.null (KeyMaterial.passphrase ['p']) {} 0 (fun _ => 0))
      (KeyMaterial.passphrase ['p']) 0 = .ok Json.null ∧
    decodeWithKeyFallback
      (encodeToken Json.null (KeyMaterial.passphrase ['p']) {} 0 (fun _ => 0))
      [KeyMaterial.passphrase ['p']] 0 = .ok (Json.null, 0) ∧
    decodeWithKeyFallback
      (encodeToken Json.null (KeyMaterial.passphrase ['p']) {} 0 (fun _ => 0))
      [KeyMaterial.passphrase []] 0 =
      .error ("Failed to decode token with any of the " ++
        toString ([KeyMaterial.passphrase []] : List KeyMaterial).length ++
        " provided keys. Errors: " ++
        String.intercalate "; "
          (failMsgs (encodeToken Json.null (KeyMaterial.passphrase ['p']) {} 0 (fun _ => 0))
            0 [KeyMaterial.passphrase []])) := by
  have hdec : decode (encodeToken Json.null (KeyMaterial.passphrase ['p']) {} 0 (fun _ => 0))
      (KeyMaterial.passphrase ['p']) 0 = .ok Json.null :=
    decode_encodeToken Json.null (KeyMaterial.passphrase ['p']) {} 0 0 (fun _ => 0)
      (by simp [validSecret]) (by intro h; simp at h) (by intro t ht; simp at ht)
      (by intro t _ ht _ _; simp at ht)
  refine ⟨rfl, hdec, ?_, ?_⟩
  · exact (claim6_key_fallback
      (encodeToken Json.null (KeyMaterial.passphrase ['p']) {} 0 (fun _ => 0)) 0
      [KeyMaterial.passphrase ['p']]).1 [] [] (KeyMaterial.passphrase ['p']) Json.null rfl
      (by intro s' hs'; simp at hs') rfl hdec
  · exact (claim6_key_fallback
      (encodeToken Json.null (KeyMaterial.passphrase ['p']) {} 0 (fun _ => 0)) 0
      [KeyMaterial.passphrase []]).2
      (by intro s hs hf; simp at hs; subst hs; simp [isFalsySecret] at hf)

/-! ## Streaming (src/utils/streaming.ts)

`generateChunkId()` (wall clock plus `Math.random()`) is an explicit
`chunkId` argument; each loop iteration's `Date.now()` and CSPRNG draws are
the explicit families `nows` and `ents`.  Decoded chunk fields are read
through `Option`-valued accessors: `Option.none` stands for the JS
`undefined` a missing property yields (a property holding a value of the
wrong JSON type is conflated with a missing one). -/

structure ChunkMetadata where
  index : Nat
  total : Nat
  chunkId : List Char
deriving DecidableEq

structure EncodedChunk where
  token : List Char
  metadata : ChunkMetadata
deriving DecidableEq

/-- `json.slice(start, end)`. -/
def sliceChars (s : List Char) (start stop : Nat) : List Char :=
  (s.drop start).take (stop - start)

/-- The slice of the serialized JSON carried by chunk `i`:
`json.slice(i*chunkSize, min(i*chunkSize + chunkSize, json.length))`. -/
def chunkData (json : List Char) (chunkSize i : Nat) : List Char :=
  sliceChars json (i * chunkSize) (min (i * chunkSize + chunkSize) json.length)

/-- `Math.ceil(totalSize / chunkSize)` for a positive chunk size. -/
def numChunksOf (totalSize chunkSize : Nat) : Nat :=
  (totalSize + chunkSize - 1) / chunkSize

def dataKey : List Char := ['d', 'a', 't', 'a']
def metaKey : List Char := ['m', 'e', 't', 'a']
def indexKey : List Char := ['i', 'n', 'd', 'e', 'x']
def totalKey : List Char := ['t', 'o', 't', 'a', 'l']
def chunkIdKey : List Char := ['c', 'h', 'u', 'n', 'k', 'I', 'd']

/-- The `chunkPayload` object `encodeStream` encodes for one chunk, with the
keys in JS insertion order. -/
def chunkWrapper (chunkBody : List Char) (meta : ChunkMetadata) : Json :=
  Json.obj [(dataKey, Json.str chunkBody),
    (metaKey, Json.obj [
      (indexKey, Json.num (meta.index : Int)),
      (totalKey, Json.num (meta.total : Int)),
      (chunkIdKey, Json.str meta.chunkId)])]

/-- The `for` loop of `encodeStream`, over the list of chunk indices. -/
def encodeChunksGo (json : List Char) (secret : KeyMaterial) (options : EncodeOptions)
    (chunkSize numChunks : Nat) (chunkId : List Char) (nows : Nat → Nat)
    (ents : Nat → Nat → Nat) : List Nat → Except String (List EncodedChunk)
  | [] => .ok []
  | i :: rest =>
    match encode (chunkWrapper (chunkData json chunkSize i) ⟨i, numChunks, chunkId⟩)
        secret options (nows i) (ents i) with
    | .error e => .error e
    | .ok token =>
      match encodeChunksGo json secret options chunkSize numChunks chunkId nows ents rest with
      | .error e => .error e
      | .ok chunks => .ok (⟨token, ⟨i, numChunks, chunkId⟩⟩ :: chunks)

/-- `encodeStream(data, secret, options, chunkSize)`. -/
def encodeStream (data : Json) (secret : KeyMaterial) (options : EncodeOptions)
    (chunkSize : Nat) (chunkId : List Char) (nows : Nat → Nat) (ents : Nat → Nat → Nat) :
    Except String (List EncodedChunk) :=
  encodeChunksGo (printJson data) secret options chunkSize
    (numChunksOf (printJson data).length chunkSize) chunkId nows ents
    (List.range (numChunksOf (printJson data).length chunkSize))

/-- First-match property lookup on a parsed object (the objects this program
builds never repeat a key). -/
def lookupField : List (List Char × Json) → List Char → Option Json
  | [], _ => Option.none
  | (k, v) :: rest, key => if k = key then some v else lookupField rest key

def getField (j : Json) (key : List Char) : Option Json :=
  match j with
  | Json.obj fields => lookupField fields key
  | _ => Option.none

/-- `decoded.meta.chunkId`, when it is a string. -/
def metaChunkIdOf (j : Json) : Option (List Char) :=
  match getField j metaKey with
  | some m =>
    match getField m chunkIdKey with
    | some (Json.str s) => some s
    | _ => Option.none
  | _ => Option.none

/-- `decoded.meta.index`, when it is a number. -/
def metaIndexOf (j : Json) : Option Int :=
  match getField j metaKey with
  | some m =>
    match getField m indexKey with
    | some (Json.num n) => some n
    | _ => Option.none
  | _ => Option.none

/-- `decoded.meta.total`, when it is a number. -/
def metaTotalOf (j : Json) : Option Int :=
  match getField j metaKey with
  | some m =>
    match getField m totalKey with
    | some (Json.num n) => some n
    | _ => Option.none
  | _ => Option.none

/-- `decoded.data`, when it is a string. -/
def dataOf (j : Json) : Option (List Char) :=
  match getField j dataKey with
  | some (Json.str s) => some s
  | _ => Option.none

/-- The decode loop of `decodeStream`: the first failing `decode` call
aborts the whole stream with its error. -/
def decodeAll (secret : KeyMaterial) (now : Nat) :
    List EncodedChunk → Except String (List Json)
  | [] => .ok []
  | c :: rest =>
    match decode c.token secret now with
    | .error e => .error e
    | .ok j =>
      match decodeAll secret now rest with
      | .error e => .error e
      | .ok js => .ok (j :: js)

/-- The comparator key of `decodedChunks.sort((a, b) => a.meta.index - b.meta.index)`. -/
def chunkKey (j : Json) : Int := (metaIndexOf j).getD 0

/-- The in-place stable sort (`Array.prototype.sort` is stable), as a stable
insertion sort on the comparator key. -/
def sortChunks (l : List Json) : List Json :=
  List.insertionSort (fun a b => chunkKey a ≤ chunkKey b) l

/-- The sequential-index scan: the first position `i` whose chunk does not
carry `meta.index === i`. -/
def checkIndices : List Json → Nat → Option Nat
  | [], _ => Option.none
  | j :: rest, i => if metaIndexOf j = some (i : Int) then checkIndices rest (i + 1) else some i

/-- `decodeStream(chunks, secret)`.  `JSON.parse` failure carries an
engine-specific message in JS; it is a fixed one here. -/
def decodeStream (chunks : List EncodedChunk) (secret : KeyMaterial) (now : Nat) :
    Except String Json :=
  if chunks.length = 0 then .error "No chunks provided"
  else
    match decodeAll secret now chunks with
    | .error e => .error e
    | .ok decoded =>
      match decoded.head? with
      | Option.none => .error "Invalid chunk: missing chunk ID"
      | some first =>
        match metaChunkIdOf first with
        | Option.none => .error "Invalid chunk: missing chunk ID"
        | some [] => .error "Invalid chunk: missing chunk ID"
        | some (c0 :: rest0) =>
          if ∀ j ∈ decoded, metaChunkIdOf j = some (c0 :: rest0) then
            let sorted := sortChunks decoded
            let total : Int := match sorted.head? with
              | some j => (metaTotalOf j).getD 0
              | Option.none => 0
            if (decoded.length : Int) ≠ total then
              .error ("Incomplete chunks: expected " ++ toString total ++ ", got " ++
                toString decoded.length)
            else
              match checkIndices sorted 0 with
              | some i => .error ("Missing chunk at index " ++ toString i)
              | Option.none =>
                match jsonParse ((sorted.map (fun j => (dataOf j).getD [])).flatten) with
                | some d => .ok d
                | Option.none => .error "Failed to parse reassembled data: invalid JSON"
          else .error "Chunk ID mismatch: chunks are from different streams"

theorem metaChunkIdOf_wrapper (d : List Char) (m : ChunkMetadata) :
    metaChunkIdOf (chunkWrapper d m) = some m.chunkId := rfl

theorem metaIndexOf_wrapper (d : List Char) (m : ChunkMetadata) :
    metaIndexOf (chunkWrapper d m) = some (m.index : Int) := rfl

theorem metaTotalOf_wrapper (d : List Char) (m : ChunkMetadata) :
    metaTotalOf (chunkWrapper d m) = some (m.total : Int) := rfl

theorem dataOf_wrapper (d : List Char) (m : ChunkMetadata) :
    dataOf (chunkWrapper d m) = some d := rfl

theorem chunkKey_wrapper (d : List Char) (m : ChunkMetadata) :
    chunkKey (chunkWrapper d m) = (m.index : Int) := rfl

/-- The JSON payload of chunk `i` of a stream. -/
def streamWrapperAt (json : List Char) (chunkSize numChunks : Nat) (cid : List Char)
    (i : Nat) : Json :=
  chunkWrapper (chunkData json chunkSize i) ⟨i, numChunks, cid⟩

/-- Chunk `i` of a stream, as `encodeStream` emits it. -/
def streamChunkAt (json : List Char) (secret : KeyMaterial) (options : EncodeOptions)
    (chunkSize numChunks : Nat) (cid : List Char) (nows : Nat → Nat)
    (ents : Nat → Nat → Nat) (i : Nat) : EncodedChunk :=
  ⟨encodeToken (streamWrapperAt json chunkSize numChunks cid i) secret options (nows i)
    (ents i), ⟨i, numChunks, cid⟩⟩

theorem encodeChunksGo_eq (json : List Char) (secret : KeyMaterial)
    (options : EncodeOptions) (cs n : Nat) (cid : List Char) (nows : Nat → Nat)
    (ents : Nat → Nat → Nat) (hsec : validSecret secret) :
    ∀ l : List Nat, encodeChunksGo json secret options cs n cid nows ents l =
      .ok (l.map (streamChunkAt json secret options cs n cid nows ents))
  | [] => rfl
  | i :: rest => by
      rw [encodeChunksGo]
      simp only [encode_eq _ _ _ _ _ hsec,
        encodeChunksGo_eq json secret options cs n cid nows ents hsec rest]
      rfl

/-- On a valid secret, `encodeStream` succeeds and emits exactly one chunk
per index of `range numChunks`. -/
theorem encodeStream_eq (data : Json) (secret : KeyMaterial) (options : EncodeOptions)
    (cs : Nat) (cid : List Char) (nows : Nat → Nat) (ents : Nat → Nat → Nat)
    (hsec : validSecret secret) :
    encodeStream data secret options cs cid nows ents =
      .ok ((List.range (numChunksOf (printJson data).length cs)).map
        (streamChunkAt (printJson data) secret options cs
          (numChunksOf (printJson data).length cs) cid nows ents)) := by
  rw [encodeStream]
  exact encodeChunksGo_eq _ _ _ _ _ _ _ _ hsec _

theorem decodeAll_map (secret : KeyMaterial) (now : Nat) (f : EncodedChunk → Json) :
    ∀ l : List EncodedChunk, (∀ c ∈ l, decode c.token secret now = .ok (f c)) →
      decodeAll secret now l = .ok (l.map f)
  | [], _ => rfl
  | c :: rest, h => by
      rw [decodeAll]
      simp only [h c (by simp),
        decodeAll_map secret now f rest (fun c' hc' => h c' (by simp [hc']))]
      rw [List.map_cons]

theorem chunkData_eq_take (s : List Char) (cs i : Nat) :
    chunkData s cs i = (s.drop (i * cs)).take cs := by
  rw [chunkData, sliceChars, List.take_eq_take]
  simp only [List.length_drop]
  omega

theorem flatten_chunks (cs : Nat) (hcs : 0 < cs) :
    ∀ (n : Nat) (s : List Char), s.length ≤ n * cs →
      ((List.range n).map (fun i => (s.drop (i * cs)).take cs)).flatten = s
  | 0, s, h => by
      have : s = [] := List.eq_nil_of_length_eq_zero (by omega)
      simp [this]
  | n + 1, s, h => by
      rw [List.range_succ_eq_map, List.map_cons, List.flatten_cons, List.map_map]
      have hmap : (List.range n).map ((fun i => (s.drop (i * cs)).take cs) ∘ Nat.succ) =
          (List.range n).map (fun i => ((s.drop cs).drop (i * cs)).take cs) := by
        apply List.map_congr_left
        intro i _
        simp only [Function.comp]
        rw [List.drop_drop, Nat.succ_mul, Nat.add_comm]
      rw [hmap, flatten_chunks cs hcs n (s.drop cs)
        (by rw [Nat.succ_mul] at h; simp only [List.length_drop]; omega)]
      simp

theorem checkIndices_map_range' (W : Nat → Json)
    (hW : ∀ i, metaIndexOf (W i) = some (i : Int)) :
    ∀ (n k : Nat), checkIndices ((List.range' k n).map W) k = Option.none
  | 0, _ => rfl
  | n + 1, k => by
      show checkIndices (W k :: (List.range' (k + 1) n).map W) k = Option.none
      rw [checkIndices, if_pos (hW k)]
      exact checkIndices_map_range' W hW n (k + 1)

theorem checkIndices_map_range (W : Nat → Json)
    (hW : ∀ i, metaIndexOf (W i) = some (i : Int)) (n : Nat) :
    checkIndices ((List.range n).map W) 0 = Option.none := by
  rw [List.range_eq_range']
  exact checkIndices_map_range' W hW n 0

theorem pairwise_key_map_range (W : Nat → Json)
    (hW : ∀ i, metaIndexOf (W i) = some (i : Int)) (n : Nat) :
    ((List.range n).map W).Pairwise (fun a b => chunkKey a ≤ chunkKey b) := by
  rw [List.pairwise_map]
  apply List.Pairwise.imp ?_ (List.pairwise_lt_range n)
  intro i j hij
  simp only [chunkKey, hW, Option.getD_some]
  omega

theorem key_inj_map_range (W : Nat → Json)
    (hW : ∀ i, metaIndexOf (W i) = some (i : Int)) (n : Nat) :
    ∀ a ∈ (List.range n).map W, ∀ b ∈ (List.range n).map W,
      chunkKey a = chunkKey b → a = b := by
  intro a ha b hb hk
  obtain ⟨i, _, rfl⟩ := List.mem_map.mp ha
  obtain ⟨j, _, rfl⟩ := List.mem_map.mp hb
  have hij : i = j := by
    simp only [chunkKey, hW, Option.getD_some] at hk
    omega
  rw [hij]

theorem head_map_range (W : Nat → Json) (n : Nat) (hn : 0 < n) :
    ((List.range n).map W).head? = some (W 0) := by
  cases n with
  | zero => omega
  | succ m => rw [List.range_succ_eq_map]; rfl

/-- Two sorted lists that are permutations of one another agree, provided
elements with equal sort keys are equal. -/
theorem perm_sorted_eq_of_key (key : Json → Int) :
    ∀ (l₁ l₂ : List Json), l₁.Perm l₂ →
      l₁.Pairwise (fun a b => key a ≤ key b) →
      l₂.Pairwise (fun a b => key a ≤ key b) →
      (∀ a ∈ l₁, ∀ b ∈ l₁, key a = key b → a = b) →
      l₁ = l₂
  | [], l₂, hp, _, _, _ => (hp.symm.eq_nil).symm
  | a :: t₁, l₂, hp, h1, h2, hinj => by
      cases l₂ with
      | nil => exact absurd hp.eq_nil (by simp)
      | cons b t₂ =>
          have hb1 : b ∈ a :: t₁ := hp.symm.subset (List.mem_cons_self b t₂)
          have ha2 : a ∈ b :: t₂ := hp.subset (List.mem_cons_self a t₁)
          have hkeyab : key a ≤ key b := by
            rcases List.mem_cons.mp hb1 with h | hbt
            · rw [h]
            · exact (List.pairwise_cons.mp h1).1 b hbt
          have hkeyba : key b ≤ key a := by
            rcases List.mem_cons.mp ha2 with h | hat
            · rw [h]
            · exact (List.pairwise_cons.mp h2).1 a hat
          have hab : a = b := hinj a (List.mem_cons_self a t₁) b hb1
            (le_antisymm hkeyab hkeyba)
          subst hab
          have hpt : t₁.Perm t₂ := hp.cons_inv
          rw [perm_sorted_eq_of_key key t₁ t₂ hpt (List.pairwise_cons.mp h1).2
            (List.pairwise_cons.mp h2).2
            (fun x hx y hy hk => hinj x (List.mem_cons_of_mem a hx)
              y (List.mem_cons_of_mem a hy) hk)]

/-- Sorting any permutation of a sorted, key-functional list returns it. -/
theorem sortChunks_eq_of_perm (canon l : List Json)
    (hperm : canon.Perm l)
    (hsorted : canon.Pairwise (fun a b => chunkKey a ≤ chunkKey b))
    (hinj : ∀ a ∈ canon, ∀ b ∈ canon, chunkKey a = chunkKey b → a = b) :
    sortChunks l = canon := by
  haveI htot : IsTotal Json (fun a b => chunkKey a ≤ chunkKey b) :=
    ⟨fun a b => Int.le_total _ _⟩
  haveI htr : IsTrans Json (fun a b => chunkKey a ≤ chunkKey b) :=
    ⟨fun _ _ _ h1 h2 => le_trans h1 h2⟩
  have hp : canon.Perm (sortChunks l) :=
    hperm.trans (List.perm_insertionSort _ l).symm
  have hs2 : (sortChunks l).Pairwise (fun a b => chunkKey a ≤ chunkKey b) :=
    List.sorted_insertionSort _ l
  exact (perm_sorted_eq_of_key chunkKey canon (sortChunks l) hp hsorted hs2 hinj).symm

/-- Successful `decodeStream` evaluation: when every chunk decodes, all chunk
ids agree and are non-empty, and the sorted payloads are exactly the
canonical `W 0 … W (n-1)` family, the stream decodes to the reassembled
parse. -/
theorem decodeStream_ok (chunks' : List EncodedChunk) (secret : KeyMaterial) (now : Nat)
    (j0 : Json) (t0 : List Json) (n : Nat) (W : Nat → Json) (cid : List Char) (d : Json)
    (hn : 0 < n) (hcid : cid ≠ [])
    (hdlen : (j0 :: t0).length = n)
    (hdecAll : decodeAll secret now chunks' = .ok (j0 :: t0))
    (hclen : chunks'.length ≠ 0)
    (hids : ∀ j ∈ j0 :: t0, metaChunkIdOf j = some cid)
    (hsort : sortChunks (j0 :: t0) = (List.range n).map W)
    (hWt : metaTotalOf (W 0) = some (n : Int))
    (hWi : ∀ i, metaIndexOf (W i) = some (i : Int))
    (hparse : jsonParse ((((List.range n).map W).map
      (fun j => (dataOf j).getD [])).flatten) = some d) :
    decodeStream chunks' secret now = .ok d := by
  rw [decodeStream, if_neg hclen]
  simp only [hdecAll, List.head?_cons]
  have hj0 : metaChunkIdOf j0 = some cid := hids j0 (by simp)
  cases cid with
  | nil => exact absurd rfl hcid
  | cons c0 r0 =>
    simp only [hj0]
    rw [if_pos hids]
    simp only [hsort, head_map_range W n hn, hWt, Option.getD_some]
    rw [if_neg (show ¬((((j0 :: t0).length : Nat) : Int) ≠ (n : Int)) from by
      rw [hdlen]; simp)]
    rw [checkIndices_map_range W hWi n]
    simp only [hparse]

theorem metaIndexOf_streamWrapper (json : List Char) (cs n : Nat) (cid : List Char)
    (i : Nat) : metaIndexOf (streamWrapperAt json cs n cid i) = some (i : Int) := rfl

theorem metaTotalOf_streamWrapper (json : List Char) (cs n : Nat) (cid : List Char)
    (i : Nat) : metaTotalOf (streamWrapperAt json cs n cid i) = some (n : Int) := rfl

theorem metaChunkIdOf_streamWrapper (json : List Char) (cs n : Nat) (cid : List Char)
    (i : Nat) : metaChunkIdOf (streamWrapperAt json cs n cid i) = some cid := rfl

theorem dataOf_streamWrapper (json : List Char) (cs n : Nat) (cid : List Char)
    (i : Nat) : dataOf (streamWrapperAt json cs n cid i) = some (chunkData json cs i) := rfl

theorem numChunksOf_pos (len cs : Nat) (hcs : 0 < cs) (hlen : 0 < len) :
    0 < numChunksOf len cs := by
  rw [numChunksOf]
  exact Nat.div_pos (by omega) hcs

theorem le_numChunksOf_mul (len cs : Nat) (hcs : 0 < cs) :
    len ≤ numChunksOf len cs * cs := by
  rw [numChunksOf, Nat.mul_comm]
  have hdm := Nat.div_add_mod (len + cs - 1) cs
  have hmod : (len + cs - 1) % cs < cs := Nat.mod_lt _ hcs
  generalize cs * ((len + cs - 1) / cs) = t at hdm ⊢
  generalize (len + cs - 1) % cs = r at hdm hmod
  omega

/-- Decoding any permutation of the chunks `encodeStream` produced (with
`options = {}`) recovers the original data. -/
theorem decodeStream_perm_encodeStream (dataJ : Json) (secret : KeyMaterial)
    (chunkSize n : Nat) (cid : List Char) (nows : Nat → Nat) (ents : Nat → Nat → Nat)
    (now_d : Nat) (chunks' : List EncodedChunk)
    (hcs : 0 < chunkSize) (hsec : validSecret secret) (hcid : cid ≠ [])
    (hn : n = numChunksOf (printJson dataJ).length chunkSize)
    (hperm : ((List.range n).map
      (streamChunkAt (printJson dataJ) secret {} chunkSize n cid nows ents)).Perm chunks') :
    decodeStream chunks' secret now_d = .ok dataJ := by
  have hjlen : 0 < (printJson dataJ).length := by
    obtain ⟨c, t, hc, _, _⟩ := printJson_head dataJ
    rw [hc]
    simp
  have hn0 : 0 < n := hn ▸ numChunksOf_pos _ _ hcs hjlen
  have hWi : ∀ i, metaIndexOf (streamWrapperAt (printJson dataJ) chunkSize n cid i) =
      some (i : Int) := fun i => metaIndexOf_streamWrapper _ _ _ _ i
  have hdecAll : decodeAll secret now_d chunks' =
      .ok (chunks'.map (fun c =>
        chunkWrapper (chunkData (printJson dataJ) chunkSize c.metadata.index) c.metadata)) := by
    apply decodeAll_map
    intro c hc
    obtain ⟨i, _, rfl⟩ := List.mem_map.mp (hperm.symm.subset hc)
    exact decode_encodeToken (streamWrapperAt (printJson dataJ) chunkSize n cid i) secret {}
      (nows i) now_d (ents i) hsec (by intro h; simp at h) (by intro t ht; simp at ht)
      (by intro t _ ht _ _; simp at ht)
  have hpmap : ((List.range n).map (streamWrapperAt (printJson dataJ) chunkSize n cid)).Perm
      (chunks'.map (fun c =>
        chunkWrapper (chunkData (printJson dataJ) chunkSize c.metadata.index) c.metadata)) := by
    have h := hperm.map (fun c =>
      chunkWrapper (chunkData (printJson dataJ) chunkSize c.metadata.index) c.metadata)
    rw [List.map_map] at h
    have h2 : List.map ((fun c =>
        chunkWrapper (chunkData (printJson dataJ) chunkSize c.metadata.index) c.metadata) ∘
          streamChunkAt (printJson dataJ) secret {} chunkSize n cid nows ents)
        (List.range n) =
        List.map (streamWrapperAt (printJson dataJ) chunkSize n cid) (List.range n) :=
      List.map_congr_left (fun i _ => rfl)
    rw [h2] at h
    exact h
  have hsort : sortChunks (chunks'.map (fun c =>
      chunkWrapper (chunkData (printJson dataJ) chunkSize c.metadata.index) c.metadata)) =
      (List.range n).map (streamWrapperAt (printJson dataJ) chunkSize n cid) :=
    sortChunks_eq_of_perm _ _ hpmap
      (pairwise_key_map_range _ hWi n) (key_inj_map_range _ hWi n)
  have hids : ∀ j ∈ chunks'.map (fun c =>
      chunkWrapper (chunkData (printJson dataJ) chunkSize c.metadata.index) c.metadata),
      metaChunkIdOf j = some cid := by
    intro j hj
    obtain ⟨c, hc, rfl⟩ := List.mem_map.mp hj
    obtain ⟨i, _, rfl⟩ := List.mem_map.mp (hperm.symm.subset hc)
    exact metaChunkIdOf_wrapper _ _
  have hlen' : chunks'.length = n := by
    rw [← hperm.length_eq]
    simp
  have hparse : jsonParse (((((List.range n).map
      (streamWrapperAt (printJson dataJ) chunkSize n cid)).map
      (fun j => (dataOf j).getD [])).flatten)) = some dataJ := by
    have h1 : (((List.range n).map
        (streamWrapperAt (printJson dataJ) chunkSize n cid)).map
        (fun j => (dataOf j).getD [])) =
        (List.range n).map
          (fun i => ((printJson dataJ).drop (i * chunkSize)).take chunkSize) := by
      rw [List.map_map]
      apply List.map_congr_left
      intro i _
      show (dataOf (streamWrapperAt (printJson dataJ) chunkSize n cid i)).getD [] = _
      rw [dataOf_streamWrapper, Option.getD_some, chunkData_eq_take]
    rw [h1, flatten_chunks chunkSize hcs n (printJson dataJ)
      (hn ▸ le_numChunksOf_mul (printJson dataJ).length chunkSize hcs)]
    exact jsonParse_printJson dataJ
  cases hd : chunks'.map (fun c =>
      chunkWrapper (chunkData (printJson dataJ) chunkSize c.metadata.index) c.metadata) with
  | nil =>
      have h0 : chunks'.length = 0 := by
        have h := congrArg List.length hd
        simpa using h
      omega
  | cons j0 t0 =>
      rw [hd] at hdecAll hsort hids
      have hdlen : (j0 :: t0).length = n := by
        rw [← hd, List.length_map, hlen']
      exact decodeStream_ok chunks' secret now_d j0 t0 n
        (streamWrapperAt (printJson dataJ) chunkSize n cid) cid dataJ hn0 hcid
        hdlen hdecAll (by omega)
        hids hsort (metaTotalOf_streamWrapper _ _ _ _ 0) hWi hparse

/-- C4: for any data, valid secret and positive chunk size, `encodeStream`
(with `options = {}` and a non-empty correlation id) produces exactly
`ceil(length(JSON(d)) / chunkSize)` chunks, all sharing the one correlation
id and each carrying it as total, with indices exactly `0 … total-1`; and
`decodeStream` applied to any permutation of those chunks with the same
secret returns the original data. -/
theorem claim4_stream_roundtrip (data : Json) (secret : KeyMaterial) (chunkSize : Nat)
    (cid : List Char) (nows : Nat → Nat) (ents : Nat → Nat → Nat) (now_d : Nat)
    (hcs : 0 < chunkSize) (hsec : validSecret secret) (hcid : cid ≠ []) :
    ∃ chunks, encodeStream data secret {} chunkSize cid nows ents = .ok chunks ∧
      chunks.length = numChunksOf (printJson data).length chunkSize ∧
      0 < chunks.length ∧
      (∀ c ∈ chunks, c.metadata.chunkId = cid ∧ c.metadata.total = chunks.length) ∧
      chunks.map (fun c => c.metadata.index) = List.range chunks.length ∧
      (∀ chunks', chunks.Perm chunks' → decodeStream chunks' secret now_d = .ok data) := by
  have hjlen : 0 < (printJson data).length := by
    obtain ⟨c, t, hc, _, _⟩ := printJson_head data
    rw [hc]
    simp
  have hn0 : 0 < numChunksOf (printJson data).length chunkSize :=
    numChunksOf_pos _ _ hcs hjlen
  refine ⟨(List.range (numChunksOf (printJson data).length chunkSize)).map
      (streamChunkAt (printJson data) secret {} chunkSize
        (numChunksOf (printJson data).length chunkSize) cid nows ents),
    encodeStream_eq data secret {} chunkSize cid nows ents hsec,
    by simp, by simpa using hn0, ?_, ?_, ?_⟩
  · intro c hc
    obtain ⟨i, _, rfl⟩ := List.mem_map.mp hc
    exact ⟨rfl, by simp [streamChunkAt]⟩
  · simp only [List.length_map, List.length_range, List.map_map]
    exact List.map_congr_left (fun i _ => rfl) |>.trans (List.map_id _)
  · intro chunks' hperm
    exact decodeStream_perm_encodeStream data secret chunkSize
      (numChunksOf (printJson data).length chunkSize) cid nows ents now_d chunks'
      hcs hsec hcid rfl hperm

theorem claim4_stream_roundtrip_witness :
    0 < 1 ∧ validSecret (KeyMaterial.passphrase ['p']) ∧ (['x'] : List Char) ≠ [] ∧
    (∃ chunks, encodeStream Json.null (KeyMaterial.passphrase ['p']) {} 1 ['x']
        (fun _ => 0) (fun _ _ => 0) = .ok chunks ∧
      chunks.length = numChunksOf (printJson Json.null).length 1 ∧
      0 < chunks.length ∧
      (∀ c ∈ chunks, c.metadata.chunkId = ['x'] ∧ c.metadata.total = chunks.length) ∧
      chunks.map (fun c => c.metadata.index) = List.range chunks.length ∧
      (∀ chunks', chunks.Perm chunks' →
        decodeStream chunks' (KeyMaterial.passphrase ['p']) 0 = .ok Json.null)) :=
  ⟨by decide, by simp [validSecret], by simp,
   claim4_stream_roundtrip Json.null (KeyMaterial.passphrase ['p']) 1 ['x']
     (fun _ => 0) (fun _ _ => 0) 0 (by decide) (by simp [validSecret]) (by simp)⟩

/-- `decodeStream` error stage: some decoded chunk disagrees with the first
chunk's id. -/
theorem decodeStream_mismatch (chunks' : List EncodedChunk) (secret : KeyMaterial)
    (now : Nat) (decoded : List Json) (cid : List Char)
    (hdecAll : decodeAll secret now chunks' = .ok decoded)
    (hclen : chunks'.length ≠ 0)
    (hhead : ∃ j, decoded.head? = some j ∧ metaChunkIdOf j = some cid)
    (hcid : cid ≠ [])
    (hbad : ¬ ∀ j ∈ decoded, metaChunkIdOf j = some cid) :
    decodeStream chunks' secret now =
      .error "Chunk ID mismatch: chunks are from different streams" := by
  obtain ⟨j, hj, hjc⟩ := hhead
  cases cid with
  | nil => exact absurd rfl hcid
  | cons c0 r0 =>
    rw [decodeStream, if_neg hclen]
    simp only [hdecAll, hj, hjc]
    rw [if_neg hbad]

/-- `decodeStream` error stage: the chunk count differs from the recorded
total. -/
theorem decodeStream_incomplete (chunks' : List EncodedChunk) (secret : KeyMaterial)
    (now : Nat) (decoded : List Json) (cid : List Char) (total : Int)
    (hdecAll : decodeAll secret now chunks' = .ok decoded)
    (hclen : chunks'.length ≠ 0)
    (hhead : ∃ j, decoded.head? = some j ∧ metaChunkIdOf j = some cid)
    (hcid : cid ≠ [])
    (hall : ∀ j ∈ decoded, metaChunkIdOf j = some cid)
    (htot : (match (sortChunks decoded).head? with
      | some j => (metaTotalOf j).getD 0
      | Option.none => 0) = total)
    (hne : (decoded.length : Int) ≠ total) :
    decodeStream chunks' secret now =
      .error ("Incomplete chunks: expected " ++ toString total ++ ", got " ++
        toString decoded.length) := by
  obtain ⟨j, hj, hjc⟩ := hhead
  cases cid with
  | nil => exact absurd rfl hcid
  | cons c0 r0 =>
    rw [decodeStream, if_neg hclen]
    simp only [hdecAll, hj, hjc]
    rw [if_pos hall]
    simp only [htot]
    rw [if_pos hne]

/-- `decodeStream` error stage: the sorted indices are not `0 … total-1`. -/
theorem decodeStream_gap (chunks' : List EncodedChunk) (secret : KeyMaterial)
    (now : Nat) (decoded : List Json) (cid : List Char) (i : Nat)
    (hdecAll : decodeAll secret now chunks' = .ok decoded)
    (hclen : chunks'.length ≠ 0)
    (hhead : ∃ j, decoded.head? = some j ∧ metaChunkIdOf j = some cid)
    (hcid : cid ≠ [])
    (hall : ∀ j ∈ decoded, metaChunkIdOf j = some cid)
    (hlen : (decoded.length : Int) = (match (sortChunks decoded).head? with
      | some j => (metaTotalOf j).getD 0
      | Option.none => 0))
    (hchk : checkIndices (sortChunks decoded) 0 = some i) :
    decodeStream chunks' secret now = .error ("Missing chunk at index " ++ toString i) := by
  obtain ⟨j, hj, hjc⟩ := hhead
  cases cid with
  | nil => exact absurd rfl hcid
  | cons c0 r0 =>
    rw [decodeStream, if_neg hclen]
    simp only [hdecAll, hj, hjc]
    rw [if_pos hall]
    rw [if_neg (show ¬((decoded.length : Int) ≠ _) from fun h => h hlen)]
    rw [hchk]

theorem sortChunks_eq_self (l : List Json)
    (h : l.Pairwise (fun a b => chunkKey a ≤ chunkKey b)) : sortChunks l = l :=
  List.Sorted.insertionSort_eq h

/-- Scanning a correct prefix `start … start+kl-1` followed by a chunk whose
index is not `start + kl` reports `start + kl`. -/
theorem checkIndices_append_bad (W : Nat → Json)
    (hW : ∀ i, metaIndexOf (W i) = some (i : Int)) (m : Nat) (rest : List Json) :
    ∀ (kl start : Nat), m ≠ start + kl →
      checkIndices ((List.range' start kl).map W ++ W m :: rest) start =
        some (start + kl)
  | 0, start, hm => by
      show checkIndices (W m :: rest) start = some (start + 0)
      rw [checkIndices, if_neg (by rw [hW m]; simp; omega)]
      rw [Nat.add_zero]
  | kl + 1, start, hm => by
      show checkIndices (W start :: ((List.range' (start + 1) kl).map W ++ W m :: rest))
        start = some (start + (kl + 1))
      rw [checkIndices, if_pos (hW start),
        checkIndices_append_bad W hW m rest kl (start + 1) (by omega)]
      exact congrArg some (by omega)

/-- The decoded payloads of the canonical chunk list. -/
theorem map_wrapper_streamChunks (dataJ : Json) (secret : KeyMaterial)
    (options : EncodeOptions) (cs n : Nat) (cid : List Char) (nows : Nat → Nat)
    (ents : Nat → Nat → Nat) :
    ((List.range n).map
        (streamChunkAt (printJson dataJ) secret options cs n cid nows ents)).map
      (fun c => chunkWrapper (chunkData (printJson dataJ) cs c.metadata.index) c.metadata) =
      (List.range n).map (streamWrapperAt (printJson dataJ) cs n cid) := by
  rw [List.map_map]
  exact List.map_congr_left (fun i _ => rfl)

/-- `decodeAll` over any chunks drawn from one canonical stream. -/
theorem decodeAll_stream_subset (dataJ : Json) (secret : KeyMaterial) (cs n : Nat)
    (cid : List Char) (nows : Nat → Nat) (ents : Nat → Nat → Nat) (now_d : Nat)
    (hsec : validSecret secret) (M : List EncodedChunk)
    (hsub : ∀ c ∈ M, c ∈ (List.range n).map
      (streamChunkAt (printJson dataJ) secret {} cs n cid nows ents)) :
    decodeAll secret now_d M = .ok (M.map (fun c =>
      chunkWrapper (chunkData (printJson dataJ) cs c.metadata.index) c.metadata)) := by
  apply decodeAll_map
  intro c hc
  obtain ⟨i, _, rfl⟩ := List.mem_map.mp (hsub c hc)
  exact decode_encodeToken (streamWrapperAt (printJson dataJ) cs n cid i) secret {}
    (nows i) now_d (ents i) hsec (by intro h; simp at h) (by intro t ht; simp at ht)
    (by intro t _ ht _ _; simp at ht)

/-- The decoded payload of a chunk from one of two streams, distinguished by
its correlation id. -/
def mixedWrapper (json1 json2 : List Char) (cs1 cs2 : Nat) (cid1 : List Char)
    (c : EncodedChunk) : Json :=
  if c.metadata.chunkId = cid1 then
    chunkWrapper (chunkData json1 cs1 c.metadata.index) c.metadata
  else chunkWrapper (chunkData json2 cs2 c.metadata.index) c.metadata

theorem mixedWrapper_left (json1 json2 : List Char) (cs1 cs2 : Nat) (cid1 : List Char)
    (c : EncodedChunk) (h : c.metadata.chunkId = cid1) :
    mixedWrapper json1 json2 cs1 cs2 cid1 c =
      chunkWrapper (chunkData json1 cs1 c.metadata.index) c.metadata := by
  rw [mixedWrapper, if_pos h]

theorem mixedWrapper_right (json1 json2 : List Char) (cs1 cs2 : Nat) (cid1 : List Char)
    (c : EncodedChunk) (h : ¬ c.metadata.chunkId = cid1) :
    mixedWrapper json1 json2 cs1 cs2 cid1 c =
      chunkWrapper (chunkData json2 cs2 c.metadata.index) c.metadata := by
  rw [mixedWrapper, if_neg h]

/-- Concatenating the chunks of two different streams fails with the
chunk-id mismatch error. -/
theorem decodeStream_mixed_streams (d1 d2 : Json) (secret : KeyMaterial)
    (cs1 cs2 : Nat) (cid1 cid2 : List Char) (nows1 nows2 : Nat → Nat)
    (ents1 ents2 : Nat → Nat → Nat) (now : Nat)
    (chunksA chunksB : List EncodedChunk)
    (hsec : validSecret secret)
    (hcid1 : cid1 ≠ []) (hcidne : cid1 ≠ cid2)
    (hA : encodeStream d1 secret {} cs1 cid1 nows1 ents1 = .ok chunksA)
    (hB : encodeStream d2 secret {} cs2 cid2 nows2 ents2 = .ok chunksB)
    (hA0 : chunksA ≠ []) (hB0 : chunksB ≠ []) :
    decodeStream (chunksA ++ chunksB) secret now =
      .error "Chunk ID mismatch: chunks are from different streams" := by
  have hAeq : chunksA = (List.range (numChunksOf (printJson d1).length cs1)).map
      (streamChunkAt (printJson d1) secret {} cs1
        (numChunksOf (printJson d1).length cs1) cid1 nows1 ents1) := by
    have h := encodeStream_eq d1 secret {} cs1 cid1 nows1 ents1 hsec
    rw [hA] at h
    exact Except.ok.inj h
  have hBeq : chunksB = (List.range (numChunksOf (printJson d2).length cs2)).map
      (streamChunkAt (printJson d2) secret {} cs2
        (numChunksOf (printJson d2).length cs2) cid2 nows2 ents2) := by
    have h := encodeStream_eq d2 secret {} cs2 cid2 nows2 ents2 hsec
    rw [hB] at h
    exact Except.ok.inj h
  have hdecAll : decodeAll secret now (chunksA ++ chunksB) =
      .ok ((chunksA ++ chunksB).map
        (mixedWrapper (printJson d1) (printJson d2) cs1 cs2 cid1)) := by
    apply decodeAll_map
    intro c hc
    rcases List.mem_append.mp hc with hcA | hcB
    · obtain ⟨i, _, rfl⟩ := List.mem_map.mp (hAeq ▸ hcA)
      rw [mixedWrapper_left (printJson d1) (printJson d2) cs1 cs2 cid1 _
        (show (streamChunkAt (printJson d1) secret {} cs1
          (numChunksOf (printJson d1).length cs1) cid1 nows1 ents1 i).metadata.chunkId =
          cid1 from rfl)]
      exact decode_encodeToken
        (streamWrapperAt (printJson d1) cs1 (numChunksOf (printJson d1).length cs1) cid1 i)
        secret {} (nows1 i) now (ents1 i) hsec (by intro h; simp at h)
        (by intro t ht; simp at ht) (by intro t _ ht _ _; simp at ht)
    · obtain ⟨i, _, rfl⟩ := List.mem_map.mp (hBeq ▸ hcB)
      rw [mixedWrapper_right (printJson d1) (printJson d2) cs1 cs2 cid1 _
        (show ¬ (streamChunkAt (printJson d2) secret {} cs2
          (numChunksOf (printJson d2).length cs2) cid2 nows2 ents2 i).metadata.chunkId =
          cid1 from fun h => hcidne h.symm)]
      exact decode_encodeToken
        (streamWrapperAt (printJson d2) cs2 (numChunksOf (printJson d2).length cs2) cid2 i)
        secret {} (nows2 i) now (ents2 i) hsec (by intro h; simp at h)
        (by intro t ht; simp at ht) (by intro t _ ht _ _; simp at ht)
  have hclen : (chunksA ++ chunksB).length ≠ 0 := by
    rcases chunksA with _ | ⟨x, xs⟩
    · exact absurd rfl hA0
    · simp
  have hhead : ∃ j, ((chunksA ++ chunksB).map
      (mixedWrapper (printJson d1) (printJson d2) cs1 cs2 cid1)).head? = some j ∧
      metaChunkIdOf j = some cid1 := by
    obtain ⟨c0, tA, hcA⟩ := List.exists_cons_of_ne_nil hA0
    have hc0 : c0 ∈ chunksA := by
      rw [hcA]
      exact List.mem_cons_self c0 tA
    obtain ⟨i0, _, hc0eq⟩ := List.mem_map.mp (hAeq ▸ hc0)
    refine ⟨mixedWrapper (printJson d1) (printJson d2) cs1 cs2 cid1 c0, ?_, ?_⟩
    · rw [hcA]
      rfl
    · rw [← hc0eq, mixedWrapper_left (printJson d1) (printJson d2) cs1 cs2 cid1 _
        (show (streamChunkAt (printJson d1) secret {} cs1
          (numChunksOf (printJson d1).length cs1) cid1 nows1 ents1 i0).metadata.chunkId =
          cid1 from rfl)]
      exact metaChunkIdOf_wrapper _ _
  have hbad : ¬ ∀ j ∈ (chunksA ++ chunksB).map
      (mixedWrapper (printJson d1) (printJson d2) cs1 cs2 cid1),
      metaChunkIdOf j = some cid1 := by
    intro hfor
    obtain ⟨b0, tB, hcB⟩ := List.exists_cons_of_ne_nil hB0
    have hb0 : b0 ∈ chunksB := by
      rw [hcB]
      exact List.mem_cons_self b0 tB
    obtain ⟨j0, _, hb0eq⟩ := List.mem_map.mp (hBeq ▸ hb0)
    have hmem : mixedWrapper (printJson d1) (printJson d2) cs1 cs2 cid1 b0 ∈
        (chunksA ++ chunksB).map
          (mixedWrapper (printJson d1) (printJson d2) cs1 cs2 cid1) :=
      List.mem_map_of_mem _ (List.mem_append.mpr (Or.inr hb0))
    have h1 := hfor _ hmem
    rw [← hb0eq, mixedWrapper_right (printJson d1) (printJson d2) cs1 cs2 cid1 _
      (show ¬ (streamChunkAt (printJson d2) secret {} cs2
        (numChunksOf (printJson d2).length cs2) cid2 nows2 ents2 j0).metadata.chunkId =
        cid1 from fun h => hcidne h.symm)] at h1
    rw [metaChunkIdOf_wrapper] at h1
    exact hcidne (Option.some.inj h1).symm
  exact decodeStream_mismatch (chunksA ++ chunksB) secret now _ cid1 hdecAll hclen hhead
    hcid1 hbad

/-- Removing any one chunk from a multi-chunk stream fails with the
incomplete-chunks error reporting expected and actual counts. -/
theorem decodeStream_removed_chunk (d : Json) (secret : KeyMaterial) (cs : Nat)
    (cid : List Char) (nows : Nat → Nat) (ents : Nat → Nat → Nat) (now : Nat)
    (chunks pre post : List EncodedChunk) (c : EncodedChunk)
    (hsec : validSecret secret) (hcid : cid ≠ [])
    (henc : encodeStream d secret {} cs cid nows ents = .ok chunks)
    (hsplit : chunks = pre ++ c :: post)
    (h2 : 2 ≤ chunks.length) :
    decodeStream (pre ++ post) secret now =
      .error ("Incomplete chunks: expected " ++ toString ((chunks.length : Nat) : Int) ++
        ", got " ++ toString (chunks.length - 1)) := by
  have hceq : chunks = (List.range (numChunksOf (printJson d).length cs)).map
      (streamChunkAt (printJson d) secret {} cs
        (numChunksOf (printJson d).length cs) cid nows ents) := by
    have h := encodeStream_eq d secret {} cs cid nows ents hsec
    rw [henc] at h
    exact Except.ok.inj h
  have hn : chunks.length = numChunksOf (printJson d).length cs := by
    rw [hceq]
    simp
  have hlensplit : chunks.length = pre.length + (post.length + 1) := by
    rw [hsplit]
    simp
  have hWi : ∀ i, metaIndexOf (streamWrapperAt (printJson d) cs
      (numChunksOf (printJson d).length cs) cid i) = some (i : Int) :=
    fun i => metaIndexOf_streamWrapper _ _ _ _ i
  have hsubM : ∀ x ∈ pre ++ post, x ∈ (List.range (numChunksOf (printJson d).length cs)).map
      (streamChunkAt (printJson d) secret {} cs
        (numChunksOf (printJson d).length cs) cid nows ents) := by
    intro x hx
    rw [← hceq, hsplit]
    rcases List.mem_append.mp hx with h | h
    · exact List.mem_append.mpr (Or.inl h)
    · exact List.mem_append.mpr (Or.inr (List.mem_cons_of_mem c h))
  have hdecAll := decodeAll_stream_subset d secret cs
    (numChunksOf (printJson d).length cs) cid nows ents now hsec (pre ++ post) hsubM
  have hels : ∀ j ∈ (pre ++ post).map (fun x =>
      chunkWrapper (chunkData (printJson d) cs x.metadata.index) x.metadata),
      metaChunkIdOf j = some cid ∧
      metaTotalOf j = some ((numChunksOf (printJson d).length cs : Nat) : Int) := by
    intro j hj
    obtain ⟨x, hx, rfl⟩ := List.mem_map.mp hj
    obtain ⟨i, _, rfl⟩ := List.mem_map.mp (hsubM x hx)
    exact ⟨metaChunkIdOf_wrapper _ _, metaTotalOf_wrapper _ _⟩
  have hcanonPair : (chunks.map (fun x =>
      chunkWrapper (chunkData (printJson d) cs x.metadata.index) x.metadata)).Pairwise
      (fun a b => chunkKey a ≤ chunkKey b) := by
    rw [hceq, map_wrapper_streamChunks]
    exact pairwise_key_map_range _ hWi _
  have hmsub : List.Sublist
      ((pre ++ post).map (fun x =>
        chunkWrapper (chunkData (printJson d) cs x.metadata.index) x.metadata))
      (chunks.map (fun x =>
        chunkWrapper (chunkData (printJson d) cs x.metadata.index) x.metadata)) := by
    rw [hsplit]
    exact ((List.sublist_cons_self c post).append_left pre).map _
  have hpair := List.Pairwise.sublist hmsub hcanonPair
  have hsort := sortChunks_eq_self _ hpair
  have hMne : (pre ++ post).map (fun x =>
      chunkWrapper (chunkData (printJson d) cs x.metadata.index) x.metadata) ≠ [] := by
    intro h
    have hlen0 := congrArg List.length h
    simp only [List.length_map, List.length_append, List.length_nil] at hlen0
    omega
  obtain ⟨j0, t0, hd⟩ := List.exists_cons_of_ne_nil hMne
  have hj0mem : j0 ∈ (pre ++ post).map (fun x =>
      chunkWrapper (chunkData (printJson d) cs x.metadata.index) x.metadata) := by
    rw [hd]
    exact List.mem_cons_self j0 t0
  have htot : (match (sortChunks ((pre ++ post).map (fun x =>
      chunkWrapper (chunkData (printJson d) cs x.metadata.index) x.metadata))).head? with
      | some j => (metaTotalOf j).getD 0
      | Option.none => 0) = ((numChunksOf (printJson d).length cs : Nat) : Int) := by
    rw [hsort, hd]
    simp only [List.head?_cons]
    rw [(hels j0 hj0mem).2]
    rfl
  have hgot : ((pre ++ post).map (fun x =>
      chunkWrapper (chunkData (printJson d) cs x.metadata.index) x.metadata)).length =
      chunks.length - 1 := by
    simp only [List.length_map, List.length_append]
    omega
  have hfinal := decodeStream_incomplete (pre ++ post) secret now _ cid
    ((numChunksOf (printJson d).length cs : Nat) : Int) hdecAll
    (by simp only [List.length_append]; omega)
    ⟨j0, by rw [hd]; rfl, (hels j0 hj0mem).1⟩ hcid (fun j hj => (hels j hj).1) htot
    (by rw [hgot]; omega)
  rw [hfinal, hgot, ← hn]

theorem range'_succ_eq (s m : Nat) : List.range' s (m + 1) = s :: List.range' (s + 1) m := rfl

theorem mem_range'_ge : ∀ (n s x : Nat), x ∈ List.range' s n → s ≤ x
  | 0, s, x, h => by simp at h
  | n + 1, s, x, h => by
      rw [range'_succ_eq] at h
      rcases List.mem_cons.mp h with h' | h'
      · omega
      · have := mem_range'_ge n (s + 1) x h'
        omega

theorem pairwise_le_range' : ∀ (n s : Nat),
    (List.range' s n).Pairwise (fun i j : Nat => i ≤ j)
  | 0, _ => List.Pairwise.nil
  | n + 1, s => by
      rw [range'_succ_eq, List.pairwise_cons]
      exact ⟨fun b hb => by have := mem_range'_ge n (s + 1) b hb; omega,
        pairwise_le_range' n (s + 1)⟩

theorem mem_range'_lt : ∀ (n s x : Nat), x ∈ List.range' s n → x < s + n
  | 0, s, x, h => by simp at h
  | n + 1, s, x, h => by
      rw [range'_succ_eq] at h
      rcases List.mem_cons.mp h with h' | h'
      · omega
      · have := mem_range'_lt n (s + 1) x h'
        omega


theorem drop_range' : ∀ (len s m : Nat),
    (List.range' s len).drop m = List.range' (s + m) (len - m)
  | len, s, 0 => by simp
  | 0, s, m + 1 => by simp
  | len + 1, s, m + 1 => by
      rw [range'_succ_eq, List.drop_succ_cons, drop_range' len (s + 1) m]
      have h1 : s + 1 + m = s + (m + 1) := by omega
      have h2 : len - m = len + 1 - (m + 1) := by omega
      rw [h1, h2]

theorem drop_range (m n : Nat) : (List.range n).drop m = List.range' m (n - m) := by
  rw [List.range_eq_range', drop_range']
  rw [Nat.zero_add]

/-- Replacing the chunk at position `k` with a duplicate of its successor
leaves a gap at index `k`, and `decodeStream` names it. -/
theorem decodeStream_gap_duplicate (d : Json) (secret : KeyMaterial) (cs n : Nat)
    (cid : List Char) (nows : Nat → Nat) (ents : Nat → Nat → Nat) (now : Nat)
    (chunks : List EncodedChunk) (k : Nat)
    (hsec : validSecret secret) (hcid : cid ≠ [])
    (hneq : n = numChunksOf (printJson d).length cs)
    (henc : encodeStream d secret {} cs cid nows ents = .ok chunks)
    (hk : k + 1 < chunks.length) :
    decodeStream (chunks.take k ++ ((chunks.drop (k + 1)).take 1 ++ chunks.drop (k + 1)))
      secret now = .error ("Missing chunk at index " ++ toString k) := by
  have hceq : chunks = (List.range n).map
      (streamChunkAt (printJson d) secret {} cs n cid nows ents) := by
    have h := encodeStream_eq d secret {} cs cid nows ents hsec
    rw [henc] at h
    rw [hneq]
    exact Except.ok.inj h
  have hn : chunks.length = n := by
    rw [hceq]
    simp
  have hkn : k + 1 < n := by omega
  have hWi : ∀ i, metaIndexOf (streamWrapperAt (printJson d) cs n cid i) = some (i : Int) :=
    fun i => metaIndexOf_streamWrapper _ _ _ _ i
  have hsubM : ∀ x ∈ chunks.take k ++ ((chunks.drop (k + 1)).take 1 ++
      chunks.drop (k + 1)), x ∈ (List.range n).map
      (streamChunkAt (printJson d) secret {} cs n cid nows ents) := by
    intro x hx
    rw [← hceq]
    rcases List.mem_append.mp hx with h | h
    · exact List.take_subset k chunks h
    · rcases List.mem_append.mp h with h' | h'
      · exact List.drop_subset (k + 1) chunks (List.take_subset 1 _ h')
      · exact List.drop_subset (k + 1) chunks h'
  have hdecAll := decodeAll_stream_subset d secret cs n cid nows ents now hsec
    (chunks.take k ++ ((chunks.drop (k + 1)).take 1 ++ chunks.drop (k + 1))) hsubM
  have hcanon : chunks.map (fun x =>
      chunkWrapper (chunkData (printJson d) cs x.metadata.index) x.metadata) =
      (List.range n).map (streamWrapperAt (printJson d) cs n cid) := by
    rw [hceq]
    exact map_wrapper_streamChunks d secret {} cs n cid nows ents
  have hMf : (chunks.take k ++ ((chunks.drop (k + 1)).take 1 ++
      chunks.drop (k + 1))).map (fun x =>
        chunkWrapper (chunkData (printJson d) cs x.metadata.index) x.metadata) =
      (List.range' 0 k).map (streamWrapperAt (printJson d) cs n cid) ++
        (streamWrapperAt (printJson d) cs n cid (k + 1) ::
          streamWrapperAt (printJson d) cs n cid (k + 1) ::
          (List.range' (k + 2) (n - (k + 2))).map
            (streamWrapperAt (printJson d) cs n cid)) := by
    simp only [List.map_append, List.map_take, List.map_drop]
    rw [hcanon]
    simp only [← List.map_take, ← List.map_drop]
    rw [List.take_range, drop_range, Nat.min_eq_left (by omega)]
    rw [show n - (k + 1) = (n - (k + 2)) + 1 from by omega]
    rw [range'_succ_eq, List.map_cons, List.range_eq_range']
    rfl
  have hels : ∀ j ∈ (chunks.take k ++ ((chunks.drop (k + 1)).take 1 ++
      chunks.drop (k + 1))).map (fun x =>
        chunkWrapper (chunkData (printJson d) cs x.metadata.index) x.metadata),
      metaChunkIdOf j = some cid ∧ metaTotalOf j = some ((n : Nat) : Int) := by
    intro j hj
    obtain ⟨x, hx, rfl⟩ := List.mem_map.mp hj
    obtain ⟨i, _, rfl⟩ := List.mem_map.mp (hsubM x hx)
    exact ⟨metaChunkIdOf_wrapper _ _, metaTotalOf_wrapper _ _⟩
  have hpairM : ((chunks.take k ++ ((chunks.drop (k + 1)).take 1 ++
      chunks.drop (k + 1))).map (fun x =>
        chunkWrapper (chunkData (printJson d) cs x.metadata.index) x.metadata)).Pairwise
      (fun a b => chunkKey a ≤ chunkKey b) := by
    rw [hMf, ← List.map_cons, ← List.map_cons, ← List.map_append]
    rw [List.pairwise_map]
    have hLpair : (List.range' 0 k ++
        (k + 1) :: (k + 1) :: List.range' (k + 2) (n - (k + 2))).Pairwise
        (fun i j : Nat => i ≤ j) := by
      rw [List.pairwise_append]
      refine ⟨pairwise_le_range' k 0, ?_, ?_⟩
      · rw [List.pairwise_cons]
        refine ⟨?_, ?_⟩
        · intro b hb
          rcases List.mem_cons.mp hb with h | h
          · omega
          · have := mem_range'_ge _ _ _ h
            omega
        · rw [List.pairwise_cons]
          exact ⟨fun b hb => by have := mem_range'_ge _ _ _ hb; omega,
            pairwise_le_range' _ _⟩
      · intro a ha b hb
        have ha' := mem_range'_lt _ _ _ ha
        rcases List.mem_cons.mp hb with h | h
        · omega
        · rcases List.mem_cons.mp h with h' | h'
          · omega
          · have := mem_range'_ge _ _ _ h'
            omega
    apply List.Pairwise.imp ?_ hLpair
    intro i j hij
    simp only [chunkKey, hWi, Option.getD_some]
    omega
  have hsort := sortChunks_eq_self _ hpairM
  have hdlenM : ((chunks.take k ++ ((chunks.drop (k + 1)).take 1 ++
      chunks.drop (k + 1))).map (fun x =>
        chunkWrapper (chunkData (printJson d) cs x.metadata.index) x.metadata)).length =
      n := by
    rw [hMf]
    simp only [List.length_append, List.length_map, List.length_cons, List.length_range']
    omega
  have hMne : (chunks.take k ++ ((chunks.drop (k + 1)).take 1 ++
      chunks.drop (k + 1))).map (fun x =>
        chunkWrapper (chunkData (printJson d) cs x.metadata.index) x.metadata) ≠ [] := by
    intro h
    rw [h] at hdlenM
    simp at hdlenM
    omega
  obtain ⟨j0, t0, hd⟩ := List.exists_cons_of_ne_nil hMne
  have hj0mem : j0 ∈ (chunks.take k ++ ((chunks.drop (k + 1)).take 1 ++
      chunks.drop (k + 1))).map (fun x =>
        chunkWrapper (chunkData (printJson d) cs x.metadata.index) x.metadata) := by
    rw [hd]
    exact List.mem_cons_self j0 t0
  have htot : (match (sortChunks ((chunks.take k ++ ((chunks.drop (k + 1)).take 1 ++
      chunks.drop (k + 1))).map (fun x =>
        chunkWrapper (chunkData (printJson d) cs x.metadata.index) x.metadata))).head? with
      | some j => (metaTotalOf j).getD 0
      | Option.none => 0) = ((n : Nat) : Int) := by
    rw [hsort, hd]
    simp only [List.head?_cons]
    rw [(hels j0 hj0mem).2]
    rfl
  have hchk : checkIndices (sortChunks ((chunks.take k ++ ((chunks.drop (k + 1)).take 1 ++
      chunks.drop (k + 1))).map (fun x =>
        chunkWrapper (chunkData (printJson d) cs x.metadata.index) x.metadata))) 0 =
      some k := by
    rw [hsort, hMf]
    rw [checkIndices_append_bad (streamWrapperAt (printJson d) cs n cid) hWi (k + 1) _
      k 0 (by omega)]
    rw [Nat.zero_add]
  have hfinal := decodeStream_gap
    (chunks.take k ++ ((chunks.drop (k + 1)).take 1 ++ chunks.drop (k + 1))) secret now _
    cid k hdecAll
    (by simp only [List.length_append, List.length_take, List.length_drop]; omega)
    ⟨j0, by rw [hd]; rfl, (hels j0 hj0mem).1⟩ hcid (fun j hj => (hels j hj).1)
    (by rw [htot, hdlenM]) hchk
  exact hfinal

/-- C5: `decodeStream` rejects an empty chunk array; mixing the chunks of
two streams with different correlation ids fails with the chunk-id mismatch
error; removing any one chunk of a multi-chunk stream fails with the
incomplete-chunks error reporting expected and actual counts; and replacing
a chunk with a duplicate of another (so the indices are not exactly
`0 … total-1`) fails naming the first gap index. -/
theorem claim5_stream_errors :
    (∀ (secret : KeyMaterial) (now : Nat),
      decodeStream [] secret now = .error "No chunks provided") ∧
    (∀ (d1 d2 : Json) (secret : KeyMaterial) (cs1 cs2 : Nat) (cid1 cid2 : List Char)
      (nows1 nows2 : Nat → Nat) (ents1 ents2 : Nat → Nat → Nat) (now : Nat)
      (chunksA chunksB : List EncodedChunk),
      validSecret secret → cid1 ≠ [] → cid1 ≠ cid2 →
      encodeStream d1 secret {} cs1 cid1 nows1 ents1 = .ok chunksA →
      encodeStream d2 secret {} cs2 cid2 nows2 ents2 = .ok chunksB →
      chunksA ≠ [] → chunksB ≠ [] →
      decodeStream (chunksA ++ chunksB) secret now =
        .error "Chunk ID mismatch: chunks are from different streams") ∧
    (∀ (d : Json) (secret : KeyMaterial) (cs : Nat) (cid : List Char)
      (nows : Nat → Nat) (ents : Nat → Nat → Nat) (now : Nat)
      (chunks pre post : List EncodedChunk) (c : EncodedChunk),
      validSecret secret → cid ≠ [] →
      encodeStream d secret {} cs cid nows ents = .ok chunks →
      chunks = pre ++ c :: post → 2 ≤ chunks.length →
      decodeStream (pre ++ post) secret now =
        .error ("Incomplete chunks: expected " ++ toString ((chunks.length : Nat) : Int) ++
          ", got " ++ toString (chunks.length - 1))) ∧
    (∀ (d : Json) (secret : KeyMaterial) (cs : Nat) (cid : List Char)
      (nows : Nat → Nat) (ents : Nat → Nat → Nat) (now : Nat)
      (chunks : List EncodedChunk) (k : Nat),
      validSecret secret → cid ≠ [] →
      encodeStream d secret {} cs cid nows ents = .ok chunks →
      k + 1 < chunks.length →
      decodeStream (chunks.take k ++ ((chunks.drop (k + 1)).take 1 ++
        chunks.drop (k + 1))) secret now =
        .error ("Missing chunk at index " ++ toString k)) := by
  refine ⟨fun secret now => rfl, ?_, ?_, ?_⟩
  · intro d1 d2 secret cs1 cs2 cid1 cid2 nows1 nows2 ents1 ents2 now chunksA chunksB
      hsec hcid1 hcidne hA hB hA0 hB0
    exact decodeStream_mixed_streams d1 d2 secret cs1 cs2 cid1 cid2 nows1 nows2
      ents1 ents2 now chunksA chunksB hsec hcid1 hcidne hA hB hA0 hB0
  · intro d secret cs cid nows ents now chunks pre post c hsec hcid henc hsplit h2
    exact decodeStream_removed_chunk d secret cs cid nows ents now chunks pre post c
      hsec hcid henc hsplit h2
  · intro d secret cs cid nows ents now chunks k hsec hcid henc hk
    exact decodeStream_gap_duplicate d secret cs
      (numChunksOf (printJson d).length cs) cid nows ents now chunks k hsec hcid rfl henc hk

theorem claim5_stream_errors_witness :
    (decodeStream [] (KeyMaterial.passphrase ['p']) 0 = .error "No chunks provided") ∧
    (decodeStream (((List.range (numChunksOf (printJson Json.null).length 1)).map
      (streamChunkAt (printJson Json.null) (KeyMaterial.passphrase ['p']) {} 1
        (numChunksOf (printJson Json.null).length 1) ['x'] (fun _ => 0) (fun _ _ => 0))) ++
      ((List.range (numChunksOf (printJson (Json.bool true)).length 1)).map
      (streamChunkAt (printJson (Json.bool true)) (KeyMaterial.passphrase ['p']) {} 1
        (numChunksOf (printJson (Json.bool true)).length 1) ['y'] (fun _ => 0)
        (fun _ _ => 0)))) (KeyMaterial.passphrase ['p']) 0 =
      .error "Chunk ID mismatch: chunks are from different streams") ∧
    (decodeStream (((List.range (numChunksOf (printJson Json.null).length 1)).map
      (streamChunkAt (printJson Json.null) (KeyMaterial.passphrase ['p']) {} 1
        (numChunksOf (printJson Json.null).length 1) ['x'] (fun _ => 0) (fun _ _ => 0))).take 1 ++
      ((List.range (numChunksOf (printJson Json.null).length 1)).map
      (streamChunkAt (printJson Json.null) (KeyMaterial.passphrase ['p']) {} 1
        (numChunksOf (printJson Json.null).length 1) ['x'] (fun _ => 0) (fun _ _ => 0))).drop 2) (KeyMaterial.passphrase ['p']) 0 =
      .error ("Incomplete chunks: expected " ++
        toString ((((List.range (numChunksOf (printJson Json.null).length 1)).map
      (streamChunkAt (printJson Json.null) (KeyMaterial.passphrase ['p']) {} 1
        (numChunksOf (printJson Json.null).length 1) ['x'] (fun _ => 0) (fun _ _ => 0))).length : Nat) : Int) ++
        ", got " ++ toString (((List.range (numChunksOf (printJson Json.null).length 1)).map
      (streamChunkAt (printJson Json.null) (KeyMaterial.passphrase ['p']) {} 1
        (numChunksOf (printJson Json.null).length 1) ['x'] (fun _ => 0) (fun _ _ => 0))).length - 1))) ∧
    (decodeStream (((List.range (numChunksOf (printJson Json.null).length 1)).map
      (streamChunkAt (printJson Json.null) (KeyMaterial.passphrase ['p']) {} 1
        (numChunksOf (printJson Json.null).length 1) ['x'] (fun _ => 0) (fun _ _ => 0))).take 0 ++
      ((((List.range (numChunksOf (printJson Json.null).length 1)).map
      (streamChunkAt (printJson Json.null) (KeyMaterial.passphrase ['p']) {} 1
        (numChunksOf (printJson Json.null).length 1) ['x'] (fun _ => 0) (fun _ _ => 0))).drop (0 + 1)).take 1 ++
        ((List.range (numChunksOf (printJson Json.null).length 1)).map
      (streamChunkAt (printJson Json.null) (KeyMaterial.passphrase ['p']) {} 1
        (numChunksOf (printJson Json.null).length 1) ['x'] (fun _ => 0) (fun _ _ => 0))).drop (0 + 1))) (KeyMaterial.passphrase ['p']) 0 =
      .error ("Missing chunk at index " ++ toString (0 : Nat))) := by
  refine ⟨claim5_stream_errors.1 (KeyMaterial.passphrase ['p']) 0, ?_, ?_, ?_⟩
  · exact claim5_stream_errors.2.1 Json.null (Json.bool true)
      (KeyMaterial.passphrase ['p']) 1 1 ['x'] ['y'] (fun _ => 0) (fun _ => 0)
      (fun _ _ => 0) (fun _ _ => 0) 0 _ _ (by simp [validSecret]) (by simp) (by decide)
      (encodeStream_eq Json.null (KeyMaterial.passphrase ['p']) {} 1 ['x'] (fun _ => 0)
        (fun _ _ => 0) (by simp [validSecret]))
      (encodeStream_eq (Json.bool true) (KeyMaterial.passphrase ['p']) {} 1 ['y']
        (fun _ => 0) (fun _ _ => 0) (by simp [validSecret]))
      (by decide) (by decide)
  · exact claim5_stream_errors.2.2.1 Json.null (KeyMaterial.passphrase ['p']) 1 ['x']
      (fun _ => 0) (fun _ _ => 0) 0 _ _ _
      (streamChunkAt (printJson Json.null) (KeyMaterial.passphrase ['p']) {} 1
        (numChunksOf (printJson Json.null).length 1) ['x'] (fun _ => 0) (fun _ _ => 0) 1)
      (by simp [validSecret]) (by simp)
      (encodeStream_eq Json.null (KeyMaterial.passphrase ['p']) {} 1 ['x'] (fun _ => 0)
        (fun _ _ => 0) (by simp [validSecret]))
      rfl (by decide)
  · exact claim5_stream_errors.2.2.2 Json.null (KeyMaterial.passphrase ['p']) 1 ['x']
      (fun _ => 0) (fun _ _ => 0) 0 _ 0 (by simp [validSecret]) (by simp)
      (encodeStream_eq Json.null (KeyMaterial.passphrase ['p']) {} 1 ['x'] (fun _ => 0)
        (fun _ _ => 0) (by simp [validSecret]))
      (by decide)
